import Mathlib

/-!
# Connect-four server: board model and turn loop

A shallow embedding of `Server/Server.go`.

* Go `int` values are Lean `Int`s.  On a rectangular board every arithmetic expression the
  source evaluates is a loop bound or index within 4 of a slice length, the number of the
  player minus one, or a column between 1 and `columns` minus one, so no 64-bit wrap-around
  occurs and none is modelled.
* A Go run-time panic (slice index out of range, `make` with a negative length,
  `rand.Intn` with a non-positive bound) is the result `none`.
* The network connections and readers of `Game` carry no game data; only their number is
  kept, because indexing `g.connections[i]` can panic.  Writes to a connection and to the
  console change no game state and their errors are ignored by the source, so no output is
  recorded; the calls are kept where they can panic.
* The inputs of a turn loop (the line a `ReadString` yields, the value behind `rand.Intn`)
  are supplied per iteration as an `Env`.
* Memory exhaustion is not modelled.
-/

namespace Connect4

/-! ## Data model -/

/-- The `Game` struct (Server.go lines 15-23): `connections` is the common length of the
slices `connections` and `readers`, which `startTCPServer` extends together. -/
structure Game where
  board : List (List Int)
  rows : Int
  columns : Int
  player : Int
  mode : String
  connections : Nat
deriving DecidableEq

/-- Slice indexing `xs[i]` with a Go `int` index; `none` is the index-out-of-range panic. -/
def index {α : Type} (xs : List α) (i : Int) : Option α :=
  if i < 0 then none else xs[i.toNat]?

/-- The read `g.board[r][c]`. -/
def cell (g : Game) (r c : Int) : Option Int :=
  (index g.board r).bind (fun row => index row c)

/-- The board after the assignment `board[r][c] = v` (only used after `board[r][c]` was read). -/
def setCell (b : List (List Int)) (r c v : Int) : List (List Int) :=
  b.modify (fun row => row.set c.toNat v) r.toNat

/-- `NewGame` (lines 135-151): `make` panics on a negative length; the inner `make` only runs
when there is at least one row. -/
def NewGame (rows columns : Int) (mode : String) : Option Game :=
  if rows < 0 then none
  else if 0 < rows ∧ columns < 0 then none
  else some
    { board := List.replicate rows.toNat (List.replicate columns.toNat 0)
      rows := rows
      columns := columns
      player := 1
      mode := mode
      connections := 0 }

/-! ## Control-flow combinators for loops and conditions that may panic -/

/-- Run `body` on the elements in order and return `true` at the first one where it does. -/
def firstTrue (body : Int → Option Bool) : List Int → Option Bool
  | [] => some false
  | i :: rest =>
    match body i with
    | none => none
    | some true => some true
    | some false => firstTrue body rest

/-- The indices visited by `for i := lo; i < hi; i++`. -/
def upTo (lo hi : Int) : List Int :=
  (List.range (hi - lo).toNat).map (fun (k : Nat) => lo + (k : Int))

/-- The loop `for i := lo; i < hi; i++ { if body(i) { return true } }`; `some false` means the
loop ran to its end. -/
def loopLt (lo hi : Int) (body : Int → Option Bool) : Option Bool :=
  firstTrue body (upTo lo hi)

/-- The loop `for i := lo; i <= hi; i++ { if body(i) { return true } }`. -/
def loopLe (lo hi : Int) (body : Int → Option Bool) : Option Bool :=
  firstTrue body (upTo lo (hi + 1))

/-- Go's short-circuit `a && b`. -/
def andAlso (a b : Option Bool) : Option Bool :=
  match a with
  | none => none
  | some false => some false
  | some true => b

/-- Sequencing of two scans: the second one runs only if the first did not `return true`. -/
def orNext (a b : Option Bool) : Option Bool :=
  match a with
  | none => none
  | some true => some true
  | some false => b

/-! ## Board operations -/

/-- The comparison `g.board[r][c] == g.player`. -/
def mine (g : Game) (r c : Int) : Option Bool :=
  (cell g r c).map (fun v => decide (v = g.player))

/-- The loop of `MakeMove` (lines 501-506); the argument `i + 1` stands for loop variable `i`,
and `0` for the exit of the loop. -/
def MakeMove.scan (g : Game) (col : Int) : Nat → Option (Game × Bool)
  | 0 => some (g, false)
  | i + 1 =>
    match cell g (i : Int) col with
    | none => none
    | some v =>
      if v = 0 then some ({ g with board := setCell g.board (i : Int) col g.player }, true)
      else MakeMove.scan g col i

/-- `MakeMove` (lines 499-508): the game after the call and the returned flag. -/
def MakeMove (g : Game) (col : Int) : Option (Game × Bool) :=
  MakeMove.scan g col g.rows.toNat

/-- `SwitchPlayer` (lines 510-517). -/
def SwitchPlayer (g : Game) : Game :=
  if g.player = 1 then { g with player := 2 } else { g with player := 1 }

/-- `IsDraw` (lines 519-527). -/
def IsDraw (g : Game) : Option Bool :=
  (loopLt 0 g.columns (fun i => (cell g 0 i).map (fun v => decide (v = 0)))).map (fun b => !b)

/-- `CheckWin` (lines 529-576). -/
def CheckWin (g : Game) : Option Bool :=
  -- Horizontal check
  orNext
    (loopLt 0 g.rows fun row =>
      loopLe 0 (g.columns - 4) fun col =>
        andAlso (mine g row col) (andAlso (mine g row (col + 1))
          (andAlso (mine g row (col + 2)) (mine g row (col + 3)))))
  -- Vertical check
  (orNext
    (loopLt 0 g.columns fun col =>
      loopLe 0 (g.rows - 4) fun row =>
        andAlso (mine g row col) (andAlso (mine g (row + 1) col)
          (andAlso (mine g (row + 2) col) (mine g (row + 3) col))))
  -- Diagonal (bottom-left to top-right)
  (orNext
    (loopLt 3 g.rows fun row =>
      loopLe 0 (g.columns - 4) fun col =>
        andAlso (mine g row col) (andAlso (mine g (row - 1) (col + 1))
          (andAlso (mine g (row - 2) (col + 2)) (mine g (row - 3) (col + 3)))))
  -- Diagonal (top-left to bottom-right)
    (loopLe 0 (g.rows - 4) fun row =>
      loopLe 0 (g.columns - 4) fun col =>
        andAlso (mine g row col) (andAlso (mine g (row + 1) (col + 1))
          (andAlso (mine g (row + 2) (col + 2)) (mine g (row + 3) (col + 3)))))))

/-- A rectangular `rows x columns` board: `rows` rows, each of `columns` cells. -/
def Rect (g : Game) : Prop :=
  (g.board.length : Int) = g.rows ∧ ∀ row ∈ g.board, (row.length : Int) = g.columns

instance (g : Game) : Decidable (Rect g) := by
  unfold Rect; infer_instance

/-! ## Text input and output -/

/-- The code points for which Go's `unicode.IsSpace` holds. -/
def isSpace (c : Char) : Bool :=
  let n := c.toNat
  (9 ≤ n && n ≤ 13) || n = 0x20 || n = 0x85 || n = 0xA0 || n = 0x1680 ||
    (0x2000 ≤ n && n ≤ 0x200A) || n = 0x2028 || n = 0x2029 || n = 0x202F || n = 0x205F ||
    n = 0x3000

/-- Go's `strings.TrimSpace`, on the characters of the string. -/
def TrimSpace (s : List Char) : List Char :=
  ((s.dropWhile isSpace).reverse.dropWhile isSpace).reverse

/-- The value of a string of decimal digits, read from the left with accumulator `acc`;
`none` if some character is not one of `0` to `9`. -/
def digits (acc : Nat) : List Char → Option Nat
  | [] => some acc
  | c :: rest =>
    if 48 ≤ c.toNat ∧ c.toNat ≤ 57 then digits (10 * acc + (c.toNat - 48)) rest else none

/-- Go's `strconv.Atoi` on a 64-bit platform: an optional sign, then at least one decimal
digit, and a value in the range of `int`; `none` is a non-nil error. -/
def Atoi (s : List Char) : Option Int :=
  match s with
  | [] => none
  | '-' :: ds =>
    if ds = [] then none
    else (digits 0 ds).bind fun n => if n ≤ 2 ^ 63 then some (-(n : Int)) else none
  | '+' :: ds =>
    if ds = [] then none
    else (digits 0 ds).bind fun n => if n < 2 ^ 63 then some (n : Int) else none
  | ds => (digits 0 ds).bind fun n => if n < 2 ^ 63 then some (n : Int) else none

/-- The result of one `ReadString` call: the data read and whether the error is non-nil.
Bytes that are not valid UTF-8 are neither spaces nor digits for `TrimSpace` and `Atoi`, so a
line containing them behaves like a line with any other such character in their place. -/
structure ReadResult where
  text : String
  failed : Bool
deriving DecidableEq

/-- What the outside world supplies to one iteration of a turn loop: the result of the single
`ReadString` the iteration may perform and the value behind `rand.Intn`. -/
structure Env where
  input : ReadResult
  draw : Nat
deriving DecidableEq

/-- Go's `rand.Intn(n)`: panics unless `0 < n`, otherwise a value in `[0, n)`. -/
def Intn (draw : Nat) (n : Int) : Option Int :=
  if n ≤ 0 then none else some ((draw : Int) % n)

/-- `getPlayerInput` (lines 370-380): the pair `(col, err != nil)`; the read error is
discarded by the source. -/
def getPlayerInput (env : Env) : Int × Bool :=
  match Atoi (TrimSpace env.input.text.data) with
  | none => (0, true)
  | some col => (col, false)

/-- `getClientInput` (lines 382-400): the pair `(col, err != nil)`, after the index
`g.readers[index]`. -/
def getClientInput (g : Game) (idx : Int) (env : Env) : Option (Int × Bool) :=
  if idx < 0 ∨ (g.connections : Int) ≤ idx then none
  else if env.input.failed then some (0, true)
  else if TrimSpace env.input.text.data = [] then some (0, true)
  else
    match Atoi (TrimSpace env.input.text.data) with
    | none => some (0, true)
    | some col => some (col, false)

/-- The index expression `g.connections[i]`, followed by a write whose error is ignored. -/
def writeTo (g : Game) (i : Int) : Option Unit :=
  if i < 0 ∨ (g.connections : Int) ≤ i then none else some ()

/-- The marker of a cell in `getBoardString` and `PrintBoard`. -/
def marker (v : Int) : String :=
  if v = 0 then "." else if v = 1 then "X" else if v = 2 then "O" else ""

/-- Concatenate the strings produced by `body` along a loop. -/
def build (body : Int → Option String) : List Int → Option String
  | [] => some ""
  | i :: rest =>
    match body i with
    | none => none
    | some s => (build body rest).map (fun t => s ++ t)

/-- `getBoardString` (lines 421-446); `PrintBoard` (lines 578-600) prints the same text. -/
def getBoardString (g : Game) : Option String :=
  (build (fun i =>
      (build (fun j => (cell g i j).map (fun v => marker v ++ " ")) (upTo 0 g.columns)).map
        (fun s => s ++ "\n"))
    (upTo 0 g.rows)).map
    (fun body => "\n" ++ body ++
      String.join ((upTo 1 (g.columns + 1)).map (fun i => toString i ++ " ")) ++ "\n\n")

/-- `PrintBoard` (lines 578-600). -/
def PrintBoard (g : Game) : Option Unit :=
  (getBoardString g).map (fun _ => ())

/-- `broadcastBoard` (lines 413-419): the `range` loop over the connections cannot panic. -/
def broadcastBoard (g : Game) : Option Unit :=
  (getBoardString g).map (fun _ => ())

/-- `informInvalidInput` (lines 455-475). -/
def informInvalidInput (g : Game) : Option Unit :=
  if g.mode = "ServerVsClient" then
    if g.player = 1 then some () else writeTo g 0
  else if g.mode = "ClientVsClient" then writeTo g (g.player - 1)
  else if g.mode = "ClientVsComputer" then
    if g.player = 1 then writeTo g 0 else some ()
  else some ()

/-- `informColumnFull` (lines 477-497). -/
def informColumnFull (g : Game) : Option Unit :=
  if g.mode = "ServerVsClient" then
    if g.player = 1 then some () else writeTo g 0
  else if g.mode = "ClientVsClient" then writeTo g (g.player - 1)
  else if g.mode = "ClientVsComputer" then
    if g.player = 1 then writeTo g 0 else some ()
  else some ()

/-- `startTCPServer` (lines 153-198) when listening and every `Accept` succeed (otherwise the
process exits before any game): the expected connections are appended and the empty board is
broadcast. -/
def startTCPServer (g : Game) : Option Game :=
  let expectedPlayers : Nat :=
    if g.mode = "ServerVsClient" ∨ g.mode = "ClientVsComputer" then 1
    else if g.mode = "ClientVsClient" then 2 else 0
  let g1 := { g with connections := g.connections + expectedPlayers }
  (broadcastBoard g1).map (fun _ => g1)

/-! ## The turn loops -/

/-- How one iteration of a turn loop ends. -/
inductive Step
  /-- The `continue` statement: the move was rejected. -/
  | again
  /-- The end of the body, after `SwitchPlayer`. -/
  | moved
  /-- The `break` after `CheckWin`. -/
  | won
  /-- The `break` after `IsDraw`. -/
  | drawn
  /-- A `return` from inside the loop. -/
  | quit
deriving DecidableEq

/-- The part of the body shared by `Play` (lines 293-311) and `PlayLocal` (lines 353-367),
reached after a successful `MakeMove`. -/
def afterMove (g : Game) : Option (Game × Step) :=
  (CheckWin g).bind fun win =>
    if win then some (g, Step.won)
    else (IsDraw g).bind fun draw =>
      if draw then some (g, Step.drawn) else some (SwitchPlayer g, Step.moved)

/-- The input part of the body of `Play` (lines 203-271): `some none` is a `return`, otherwise
the values of `col` and `err != nil` after the `switch`. -/
def Play.source (g : Game) (env : Env) : Option (Option (Int × Bool)) :=
  if g.mode = "ServerVsClient" then
    if g.player = 1 then
      (PrintBoard g).bind fun _ => (writeTo g 0).bind fun _ =>
        let r := getPlayerInput env
        if r.2 then some none else some (some r)
    else
      (writeTo g 0).bind fun _ => (getClientInput g 0 env).bind fun r =>
        if r.2 then some none else some (some r)
  else if g.mode = "ClientVsClient" then
    if g.player = 1 then
      (writeTo g 0).bind fun _ => (writeTo g 1).bind fun _ =>
        (getClientInput g 0 env).bind fun r => if r.2 then some none else some (some r)
    else
      (writeTo g 1).bind fun _ => (writeTo g 0).bind fun _ =>
        (getClientInput g 1 env).bind fun r => if r.2 then some none else some (some r)
  else if g.mode = "ClientVsComputer" then
    if g.player = 1 then
      (writeTo g 0).bind fun _ => (getClientInput g 0 env).bind fun r =>
        if r.2 then some none else some (some r)
    else (Intn env.draw g.columns).map fun n => some (n + 1, false)
  else some (some (0, false))

/-- The validation part of the body of `Play` (lines 273-311). -/
def Play.check (g : Game) (col : Int) (err : Bool) : Option (Game × Step) :=
  if err = false then
    if col < 1 ∨ col > g.columns then (informInvalidInput g).map fun _ => (g, Step.again)
    else
      (MakeMove g (col - 1)).bind fun r =>
        if r.2 = false then (informColumnFull r.1).map fun _ => (r.1, Step.again)
        else (broadcastBoard r.1).bind fun _ => (PrintBoard r.1).bind fun _ => afterMove r.1
  else (informInvalidInput g).map fun _ => (g, Step.again)

/-- One iteration of the loop of `Play` (lines 202-311). -/
def Play.iter (g : Game) (env : Env) : Option (Game × Step) :=
  (Play.source g env).bind fun s =>
    match s with
    | none => some (g, Step.quit)
    | some r => Play.check g r.1 r.2

/-- The input part of the body of `PlayLocal` (lines 325-341): `some none` is the `return`,
otherwise the value of `col`. -/
def PlayLocal.source (g : Game) (env : Env) : Option (Option Int) :=
  if g.player = 1 then
    let r := getPlayerInput env
    if r.2 then some none else some (some r.1)
  else (Intn env.draw g.columns).map fun n => some (n + 1)

/-- One iteration of the loop of `PlayLocal` (lines 324-367).  The second `PrintBoard` before
each `break` prints the board that the call before `CheckWin` just printed, so it cannot
panic and is not repeated here. -/
def PlayLocal.iter (g : Game) (env : Env) : Option (Game × Step) :=
  (PlayLocal.source g env).bind fun s =>
    match s with
    | none => some (g, Step.quit)
    | some col =>
      if col < 1 ∨ col > g.columns then some (g, Step.again)
      else
        (MakeMove g (col - 1)).bind fun r =>
          if r.2 = false then some (r.1, Step.again)
          else (PrintBoard r.1).bind fun _ => afterMove r.1

/-- The state of a turn loop: the game, the number of iterations so far that placed a piece
without ending the game, and whether the loop has been left. -/
structure Run where
  game : Game
  moves : Nat
  finished : Bool
deriving DecidableEq

/-- A turn loop with body `iter`, run on the inputs of successive iterations, from game `g`
with `n` moves counted so far; it stops early when the body leaves the loop. -/
def runLoop (iter : Game → Env → Option (Game × Step)) (g : Game) (n : Nat) :
    List Env → Option Run
  | [] => some ⟨g, n, false⟩
  | env :: rest =>
    match iter g env with
    | none => none
    | some (g1, Step.again) => runLoop iter g1 n rest
    | some (g1, Step.moved) => runLoop iter g1 (n + 1) rest
    | some (g1, _) => some ⟨g1, n, true⟩

/-- `Play` (lines 200-317) on the inputs of its first iterations. -/
def Play (g : Game) (envs : List Env) : Option Run :=
  runLoop Play.iter g 0 envs

/-- `PlayLocal` (lines 319-368) on the inputs of its first iterations. -/
def PlayLocal (g : Game) (envs : List Env) : Option Run :=
  (PrintBoard g).bind fun _ => runLoop PlayLocal.iter g 0 envs

/-! ## Sample games and inputs -/

/-- A 5 x 5 position in which player 1 holds the diagonal from `(4,0)` up to `(1,3)`. -/
def sample : Game :=
  { board := [[0,0,0,0,0],[0,0,0,1,0],[0,0,1,2,0],[0,1,2,1,0],[1,2,2,1,0]],
    rows := 5, columns := 5, player := 1, mode := "ClientVsClient", connections := 2 }

/-- A 4 x 4 board without an empty cell on which nobody has four in a row. -/
def drawn44 : Game :=
  { board := [[1,1,2,2],[2,2,1,1],[1,1,2,2],[2,2,1,1]],
    rows := 4, columns := 4, player := 2, mode := "ClientVsClient", connections := 2 }

/-- A new 6 x 7 game between two clients, after both connections were accepted. -/
def demo : Game :=
  { board := List.replicate 6 (List.replicate 7 0),
    rows := 6, columns := 7, player := 1, mode := "ClientVsClient", connections := 2 }

/-- A new 2 x 2 game without connections. -/
def tiny : Game :=
  { board := [[0,0],[0,0]],
    rows := 2, columns := 2, player := 1, mode := "ServerVsComputer", connections := 0 }

/-- The game `tiny` after three accepted moves: columns 1, 2 and 1 (counted from 1). -/
def tinyThree : Game :=
  { board := [[1,0],[1,2]],
    rows := 2, columns := 2, player := 2, mode := "ServerVsComputer", connections := 0 }

/-- The game `tiny` after the calls `MakeMove(0)`, `SwitchPlayer`, `MakeMove(0)`,
`SwitchPlayer`, a `MakeMove(0)` that fails, `MakeMove(1)`, `SwitchPlayer`, `MakeMove(1)`:
every cell is taken. -/
def tinyFull : Game :=
  { board := [[2,2],[1,1]],
    rows := 2, columns := 2, player := 2, mode := "ServerVsComputer", connections := 0 }

/-- A new 4 x 4 game without connections. -/
def new44 : Game :=
  { board := [[0,0,0,0],[0,0,0,0],[0,0,0,0],[0,0,0,0]],
    rows := 4, columns := 4, player := 1, mode := "ServerVsComputer", connections := 0 }

/-- A 4 x 4 position with player 1 to move in which player 2 holds three in a row on the
bottom row, closed off by a piece of player 1, and nobody has four in a row. -/
def before44 : Game :=
  { board := [[0,0,0,0],[0,0,0,0],[1,1,0,0],[2,2,2,1]],
    rows := 4, columns := 4, player := 1, mode := "ServerVsComputer", connections := 0 }

/-- The position `before44` after player 1 dropped a piece into column 2. -/
def after44 : Game :=
  { board := [[0,0,0,0],[0,0,0,0],[1,1,1,0],[2,2,2,1]],
    rows := 4, columns := 4, player := 1, mode := "ServerVsComputer", connections := 0 }

/-- The position `after44` with player 2 to move, as the turn loop reaches it. -/
def reached44 : Game :=
  { board := [[0,0,0,0],[0,0,0,0],[1,1,1,0],[2,2,2,1]],
    rows := 4, columns := 4, player := 2, mode := "ServerVsComputer", connections := 0 }

/-- The input of an iteration in which the line `s` is read without error. -/
def typed (s : String) : Env :=
  ⟨⟨s, false⟩, 0⟩

/-- The input of an iteration in which the computer moves and `rand.Intn` is fed by `n`. -/
def rolled (n : Nat) : Env :=
  ⟨⟨"", false⟩, n⟩

/-- Seven iterations of a 4 x 4 game against the computer: player 1 types columns 4, 1, 2
and 3, the computer draws columns 1, 2 and 3. -/
def moves44 : List Env :=
  [typed "4\n", rolled 0, typed "1\n", rolled 1, typed "2\n", rolled 2, typed "3\n"]

/-- A call of one of the two operations that change the game state. -/
inductive Call
  | makeMove (col : Int)
  | switchPlayer
deriving DecidableEq

/-- Run a sequence of `MakeMove` and `SwitchPlayer` calls from game `g`; the counter, which
starts at `k`, is incremented by each `MakeMove` that returns `true`. -/
def runCalls (g : Game) (k : Nat) : List Call → Option (Game × Nat)
  | [] => some (g, k)
  | Call.makeMove col :: rest =>
    match MakeMove g col with
    | none => none
    | some (g1, ok) => runCalls g1 (if ok then k + 1 else k) rest
  | Call.switchPlayer :: rest => runCalls (SwitchPlayer g) k rest

/-! ## Specification vocabulary -/

/-- The option `x` is a returned boolean (no panic) that is `true` exactly when `P` holds. -/
def Returns (x : Option Bool) (P : Prop) : Prop :=
  ∃ b, x = some b ∧ (b = true ↔ P)

/-- The four cells `(r + k*dr, c + k*dc)`, `k = 0..3`, all lie on the board and all hold `p`. -/
def FourFrom (g : Game) (p r c dr dc : Int) : Prop :=
  ∀ k : Int, 0 ≤ k → k ≤ 3 →
    0 ≤ r + k * dr ∧ r + k * dr < g.rows ∧ 0 ≤ c + k * dc ∧ c + k * dc < g.columns ∧
      cell g (r + k * dr) (c + k * dc) = some p

/-- Player `p` has four in a row: some start cell and one of the directions horizontal
`(0,+1)`, vertical `(+1,0)`, diagonal down-right `(+1,+1)`, diagonal up-right `(-1,+1)`. -/
def HasFour (g : Game) (p : Int) : Prop :=
  ∃ r c dr dc : Int,
    ((dr = 0 ∧ dc = 1) ∨ (dr = 1 ∧ dc = 0) ∨ (dr = 1 ∧ dc = 1) ∨ (dr = -1 ∧ dc = 1)) ∧
      FourFrom g p r c dr dc

/-- The cell `(r, c)` is on the board and holds a piece (a value other than `0`). -/
def Occupied (g : Game) (r c : Int) : Prop :=
  cell g r c ≠ none ∧ cell g r c ≠ some 0

instance (g : Game) (r c : Int) : Decidable (Occupied g r c) := by
  unfold Occupied; infer_instance

/-- The gravity invariant: no empty cell beneath an occupied cell of the same column. -/
def Gravity (g : Game) : Prop :=
  ∀ r c r1 : Int, Occupied g r c → r < r1 → r1 < g.rows → Occupied g r1 c

/-- The gravity invariant as a check over the finitely many board positions. -/
def GravityCheck (g : Game) : Prop :=
  ∀ c : Nat, c < g.columns.toNat → ∀ r : Nat, r < g.rows.toNat → ∀ r1 : Nat,
    r1 < g.rows.toNat → r < r1 → Occupied g r c → Occupied g r1 c

instance (g : Game) : Decidable (GravityCheck g) := by
  unfold GravityCheck; infer_instance

/-- The connections that the mode of the game uses have been accepted, as `startTCPServer`
leaves them. -/
def Ready (g : Game) : Prop :=
  (g.mode = "ServerVsClient" → 1 ≤ g.connections) ∧
    (g.mode = "ClientVsClient" → 2 ≤ g.connections) ∧
    (g.mode = "ClientVsComputer" → 1 ≤ g.connections)

/-- Both turn loops run from game `g0` without a panic, whatever the inputs: `Play` after
`startTCPServer` (which only adds connections), and `PlayLocal` directly. -/
def LoopsRun (g0 : Game) : Prop :=
  (∃ g1, startTCPServer g0 = some g1 ∧ g1 = { g0 with connections := g1.connections } ∧
      ∀ envs, ∃ run, Play g1 envs = some run) ∧
    ∀ envs, ∃ run, PlayLocal g0 envs = some run

/-- The number of non-empty cells of the board. -/
def pieces (g : Game) : Nat :=
  (g.board.map (fun row => row.countP (fun v => decide (v ≠ 0)))).sum

/-! ## Indexing lemmas -/

theorem index_eq_some {α : Type} (xs : List α) (i : Int) (v : α) :
    index xs i = some v ↔ 0 ≤ i ∧ xs[i.toNat]? = some v := by
  unfold index
  by_cases h : i < 0
  · simp [h]
  · simp [h]; omega

theorem index_bounds {α : Type} {xs : List α} {i : Int} {v : α} (h : index xs i = some v) :
    0 ≤ i ∧ i < xs.length ∧ v ∈ xs := by
  rw [index_eq_some] at h
  obtain ⟨h0, h1⟩ := h
  have hm := List.getElem?_mem h1
  rw [List.getElem?_eq_some_iff] at h1
  obtain ⟨hlt, _⟩ := h1
  refine ⟨h0, ?_, hm⟩
  omega

theorem index_of_bounds {α : Type} (xs : List α) {i : Int} (h0 : 0 ≤ i) (h1 : i < xs.length) :
    ∃ v, index xs i = some v := by
  have hlt : i.toNat < xs.length := by omega
  exact ⟨xs[i.toNat], by rw [index_eq_some]; exact ⟨h0, List.getElem?_eq_getElem hlt⟩⟩

theorem cell_eq_some {g : Game} {r c v : Int} :
    cell g r c = some v ↔ ∃ row, index g.board r = some row ∧ index row c = some v := by
  unfold cell
  cases h : index g.board r <;> simp

theorem cell_bounds {g : Game} (hg : Rect g) {r c v : Int} (h : cell g r c = some v) :
    0 ≤ r ∧ r < g.rows ∧ 0 ≤ c ∧ c < g.columns := by
  obtain ⟨row, hr, hc⟩ := cell_eq_some.mp h
  obtain ⟨a1, a2, a3⟩ := index_bounds hr
  obtain ⟨b1, b2, _⟩ := index_bounds hc
  have := hg.2 row a3
  have := hg.1
  omega

theorem cell_of_bounds {g : Game} (hg : Rect g) {r c : Int} (h0 : 0 ≤ r) (h1 : r < g.rows)
    (h2 : 0 ≤ c) (h3 : c < g.columns) : ∃ v, cell g r c = some v := by
  have hlen := hg.1
  obtain ⟨row, hr⟩ := index_of_bounds g.board h0 (by omega)
  have hrow := hg.2 row (index_bounds hr).2.2
  obtain ⟨v, hv⟩ := index_of_bounds row h2 (by omega)
  exact ⟨v, cell_eq_some.mpr ⟨row, hr, hv⟩⟩

theorem cell_setCell_same {g : Game} {r c u : Int} (v : Int) (h : cell g r c = some u) :
    cell { g with board := setCell g.board r c v } r c = some v := by
  obtain ⟨row, hr, hc⟩ := cell_eq_some.mp h
  rw [index_eq_some] at hr hc
  rw [cell_eq_some]
  refine ⟨row.set c.toNat v, ?_, ?_⟩
  · rw [index_eq_some]
    refine ⟨hr.1, ?_⟩
    simp [setCell, hr.2]
  · rw [index_eq_some]
    refine ⟨hc.1, ?_⟩
    rw [List.getElem?_eq_some_iff] at hc
    obtain ⟨hlt, _⟩ := hc.2
    simp [List.getElem?_set, hlt]

theorem cell_setCell_other {g : Game} {r c : Int} (v : Int) (h0 : 0 ≤ r) (h1 : 0 ≤ c)
    {r1 c1 : Int} (hne : r1 ≠ r ∨ c1 ≠ c) :
    cell { g with board := setCell g.board r c v } r1 c1 = cell g r1 c1 := by
  unfold cell index setCell
  by_cases hr : r1 < 0
  · simp [hr]
  · simp only [hr, if_false]
    by_cases hrr : r1 = r
    · subst hrr
      have hc : c1 ≠ c := by
        rcases hne with h | h
        · exact absurd rfl h
        · exact h
      rw [List.getElem?_modify_eq]
      cases hrow : g.board[r1.toNat]? with
      | none => simp
      | some row =>
        simp only [Option.map_eq_map, Option.map_some', Option.some_bind]
        by_cases hc1 : c1 < 0
        · simp [hc1]
        · simp only [hc1, if_false]
          rw [List.getElem?_set_ne]
          omega
    · rw [List.getElem?_modify_ne]
      omega

theorem rect_setCell {g : Game} (hg : Rect g) (r c v : Int) :
    Rect { g with board := setCell g.board r c v } := by
  obtain ⟨h1, h3⟩ := hg
  refine ⟨by simpa [setCell] using h1, ?_⟩
  intro row hrow
  simp only [setCell] at hrow
  obtain ⟨n, hn⟩ := List.mem_iff_getElem?.mp hrow
  rw [List.getElem?_modify] at hn
  cases hb : g.board[n]? with
  | none => simp [hb] at hn
  | some row0 =>
    have hmem := h3 row0 (List.getElem?_mem hb)
    simp only [hb, Option.map_eq_map, Option.map_some', Option.some.injEq] at hn
    subst hn
    split <;> simp [hmem]

/-! ## Loops and conditions -/

theorem Returns.congr {x : Option Bool} {P Q : Prop} (h : Returns x P) (hPQ : P ↔ Q) :
    Returns x Q := by
  obtain ⟨b, hb, hP⟩ := h
  exact ⟨b, hb, hP.trans hPQ⟩

theorem Returns.eq_true {x : Option Bool} {P : Prop} (h : Returns x P) (hP : P) :
    x = some true := by
  obtain ⟨b, hb, hb2⟩ := h
  rw [hb, hb2.mpr hP]

theorem Returns.eq_false {x : Option Bool} {P : Prop} (h : Returns x P) (hP : ¬ P) :
    x = some false := by
  obtain ⟨b, hb, hb2⟩ := h
  cases b with
  | false => exact hb
  | true => exact absurd (hb2.mp rfl) hP

theorem Returns.of_eq_true {x : Option Bool} {P : Prop} (h : Returns x P)
    (hx : x = some true) : P := by
  obtain ⟨b, hb, hb2⟩ := h
  rw [hb] at hx
  exact hb2.mp (Option.some.inj hx)

theorem Returns.of_eq_false {x : Option Bool} {P : Prop} (h : Returns x P)
    (hx : x = some false) : ¬ P := by
  obtain ⟨b, hb, hb2⟩ := h
  rw [hb] at hx
  intro hP
  have := hb2.mpr hP
  rw [Option.some.inj hx] at this
  exact Bool.noConfusion this

theorem firstTrue_returns {body : Int → Option Bool} {P : Int → Prop} (l : List Int)
    (h : ∀ i ∈ l, Returns (body i) (P i)) : Returns (firstTrue body l) (∃ i, i ∈ l ∧ P i) := by
  induction l with
  | nil => exact ⟨false, rfl, by simp⟩
  | cons a l ih =>
    obtain ⟨b, hb, hP⟩ := h a (List.mem_cons_self a l)
    have ih1 := ih (fun i hi => h i (List.mem_cons_of_mem a hi))
    cases b with
    | true =>
      refine ⟨true, by simp [firstTrue, hb], ?_⟩
      simp only [true_iff]
      exact ⟨a, List.mem_cons_self a l, hP.mp rfl⟩
    | false =>
      obtain ⟨b1, hb1, hQ⟩ := ih1
      refine ⟨b1, by simp [firstTrue, hb, hb1], ?_⟩
      rw [hQ]
      constructor
      · rintro ⟨i, hi, hPi⟩
        exact ⟨i, List.mem_cons_of_mem a hi, hPi⟩
      · rintro ⟨i, hi, hPi⟩
        rcases List.mem_cons.mp hi with rfl | hi1
        · have := hP.mpr hPi
          exact Bool.noConfusion this
        · exact ⟨i, hi1, hPi⟩

theorem mem_upTo {lo hi i : Int} : i ∈ upTo lo hi ↔ lo ≤ i ∧ i < hi := by
  unfold upTo
  constructor
  · intro h
    obtain ⟨k, hk, rfl⟩ := List.mem_map.mp h
    rw [List.mem_range] at hk
    omega
  · rintro ⟨h1, h2⟩
    exact List.mem_map.mpr ⟨(i - lo).toNat, List.mem_range.mpr (by omega), by omega⟩

theorem loopLt_returns {lo hi : Int} {body : Int → Option Bool} {P : Int → Prop}
    (h : ∀ i, lo ≤ i → i < hi → Returns (body i) (P i)) :
    Returns (loopLt lo hi body) (∃ i, lo ≤ i ∧ i < hi ∧ P i) := by
  refine (firstTrue_returns (P := P) (upTo lo hi) (fun i hi1 => ?_)).congr ?_
  · exact h i (mem_upTo.mp hi1).1 (mem_upTo.mp hi1).2
  · constructor
    · rintro ⟨i, hi1, hP⟩
      exact ⟨i, (mem_upTo.mp hi1).1, (mem_upTo.mp hi1).2, hP⟩
    · rintro ⟨i, h1, h2, hP⟩
      exact ⟨i, mem_upTo.mpr ⟨h1, h2⟩, hP⟩

theorem loopLe_returns {lo hi : Int} {body : Int → Option Bool} {P : Int → Prop}
    (h : ∀ i, lo ≤ i → i ≤ hi → Returns (body i) (P i)) :
    Returns (loopLe lo hi body) (∃ i, lo ≤ i ∧ i ≤ hi ∧ P i) := by
  refine (@loopLt_returns lo (hi + 1) body P (fun i h1 h2 => h i h1 (by omega))).congr ?_
  constructor
  · rintro ⟨i, h1, h2, hP⟩
    exact ⟨i, h1, by omega, hP⟩
  · rintro ⟨i, h1, h2, hP⟩
    exact ⟨i, h1, by omega, hP⟩

theorem andAlso_returns {a b : Option Bool} {P Q : Prop} (ha : Returns a P)
    (hb : P → Returns b Q) : Returns (andAlso a b) (P ∧ Q) := by
  obtain ⟨x, hx, hP⟩ := ha
  cases x with
  | false =>
    refine ⟨false, by simp [andAlso, hx], ?_⟩
    constructor
    · intro h; exact Bool.noConfusion h
    · rintro ⟨hp, _⟩
      exact hP.mpr hp
  | true =>
    obtain ⟨y, hy, hQ⟩ := hb (hP.mp rfl)
    refine ⟨y, by simp [andAlso, hx, hy], ?_⟩
    rw [hQ]
    exact ⟨fun h => ⟨hP.mp rfl, h⟩, fun h => h.2⟩

theorem orNext_returns {a b : Option Bool} {P Q : Prop} (ha : Returns a P)
    (hb : Returns b Q) : Returns (orNext a b) (P ∨ Q) := by
  obtain ⟨x, hx, hP⟩ := ha
  cases x with
  | true =>
    exact ⟨true, by simp [orNext, hx], by simp [hP.mp rfl]⟩
  | false =>
    obtain ⟨y, hy, hQ⟩ := hb
    refine ⟨y, by simp [orNext, hx, hy], ?_⟩
    rw [hQ]
    constructor
    · exact Or.inr
    · rintro (hp | hq)
      · exact Bool.noConfusion (hP.mpr hp)
      · exact hq

theorem mine_returns {g : Game} (hg : Rect g) {r c : Int} (h0 : 0 ≤ r) (h1 : r < g.rows)
    (h2 : 0 ≤ c) (h3 : c < g.columns) : Returns (mine g r c) (cell g r c = some g.player) := by
  obtain ⟨v, hv⟩ := cell_of_bounds hg h0 h1 h2 h3
  refine ⟨decide (v = g.player), by simp [mine, hv], ?_⟩
  simp [hv]

/-! ## `CheckWin` -/

theorem fourFrom_iff {g : Game} (hg : Rect g) (p r c dr dc : Int) :
    FourFrom g p r c dr dc ↔
      cell g r c = some p ∧ cell g (r + dr) (c + dc) = some p ∧
        cell g (r + 2 * dr) (c + 2 * dc) = some p ∧
        cell g (r + 3 * dr) (c + 3 * dc) = some p := by
  constructor
  · intro h
    have h0 := (h 0 (by omega) (by omega)).2.2.2.2
    have h1 := (h 1 (by omega) (by omega)).2.2.2.2
    have h2 := (h 2 (by omega) (by omega)).2.2.2.2
    have h3 := (h 3 (by omega) (by omega)).2.2.2.2
    simp only [zero_mul, add_zero, one_mul] at h0 h1
    exact ⟨h0, h1, h2, h3⟩
  · rintro ⟨h0, h1, h2, h3⟩ k hk0 hk3
    obtain rfl | rfl | rfl | rfl : k = 0 ∨ k = 1 ∨ k = 2 ∨ k = 3 := by omega
    · simp only [zero_mul, add_zero]
      have b := cell_bounds hg h0
      exact ⟨b.1, b.2.1, b.2.2.1, b.2.2.2, h0⟩
    · simp only [one_mul]
      have b := cell_bounds hg h1
      exact ⟨b.1, b.2.1, b.2.2.1, b.2.2.2, h1⟩
    · have b := cell_bounds hg h2
      exact ⟨b.1, b.2.1, b.2.2.1, b.2.2.2, h2⟩
    · have b := cell_bounds hg h3
      exact ⟨b.1, b.2.1, b.2.2.1, b.2.2.2, h3⟩

theorem CheckWin_scans {g : Game} (hg : Rect g) :
    Returns (CheckWin g)
      ((∃ row, 0 ≤ row ∧ row < g.rows ∧ ∃ col, 0 ≤ col ∧ col ≤ g.columns - 4 ∧
          (cell g row col = some g.player ∧ cell g row (col + 1) = some g.player ∧
            cell g row (col + 2) = some g.player ∧ cell g row (col + 3) = some g.player)) ∨
        (∃ col, 0 ≤ col ∧ col < g.columns ∧ ∃ row, 0 ≤ row ∧ row ≤ g.rows - 4 ∧
          (cell g row col = some g.player ∧ cell g (row + 1) col = some g.player ∧
            cell g (row + 2) col = some g.player ∧ cell g (row + 3) col = some g.player)) ∨
        (∃ row, 3 ≤ row ∧ row < g.rows ∧ ∃ col, 0 ≤ col ∧ col ≤ g.columns - 4 ∧
          (cell g row col = some g.player ∧ cell g (row - 1) (col + 1) = some g.player ∧
            cell g (row - 2) (col + 2) = some g.player ∧
            cell g (row - 3) (col + 3) = some g.player)) ∨
        (∃ row, 0 ≤ row ∧ row ≤ g.rows - 4 ∧ ∃ col, 0 ≤ col ∧ col ≤ g.columns - 4 ∧
          (cell g row col = some g.player ∧ cell g (row + 1) (col + 1) = some g.player ∧
            cell g (row + 2) (col + 2) = some g.player ∧
            cell g (row + 3) (col + 3) = some g.player))) := by
  unfold CheckWin
  refine orNext_returns ?_ (orNext_returns ?_ (orNext_returns ?_ ?_))
  · refine loopLt_returns (fun row h1 h2 => loopLe_returns (fun col h3 h4 => ?_))
    exact andAlso_returns (mine_returns hg (by omega) (by omega) (by omega) (by omega))
      (fun _ => andAlso_returns (mine_returns hg (by omega) (by omega) (by omega) (by omega))
        (fun _ => andAlso_returns (mine_returns hg (by omega) (by omega) (by omega) (by omega))
          (fun _ => mine_returns hg (by omega) (by omega) (by omega) (by omega))))
  · refine loopLt_returns (fun col h1 h2 => loopLe_returns (fun row h3 h4 => ?_))
    exact andAlso_returns (mine_returns hg (by omega) (by omega) (by omega) (by omega))
      (fun _ => andAlso_returns (mine_returns hg (by omega) (by omega) (by omega) (by omega))
        (fun _ => andAlso_returns (mine_returns hg (by omega) (by omega) (by omega) (by omega))
          (fun _ => mine_returns hg (by omega) (by omega) (by omega) (by omega))))
  · refine loopLt_returns (fun row h1 h2 => loopLe_returns (fun col h3 h4 => ?_))
    exact andAlso_returns (mine_returns hg (by omega) (by omega) (by omega) (by omega))
      (fun _ => andAlso_returns (mine_returns hg (by omega) (by omega) (by omega) (by omega))
        (fun _ => andAlso_returns (mine_returns hg (by omega) (by omega) (by omega) (by omega))
          (fun _ => mine_returns hg (by omega) (by omega) (by omega) (by omega))))
  · refine loopLe_returns (fun row h1 h2 => loopLe_returns (fun col h3 h4 => ?_))
    exact andAlso_returns (mine_returns hg (by omega) (by omega) (by omega) (by omega))
      (fun _ => andAlso_returns (mine_returns hg (by omega) (by omega) (by omega) (by omega))
        (fun _ => andAlso_returns (mine_returns hg (by omega) (by omega) (by omega) (by omega))
          (fun _ => mine_returns hg (by omega) (by omega) (by omega) (by omega))))

theorem CheckWin_returns {g : Game} (hg : Rect g) :
    Returns (CheckWin g) (HasFour g g.player) := by
  refine (CheckWin_scans hg).congr ?_
  constructor
  · rintro (⟨row, _, _, col, _, _, a0, a1, a2, a3⟩ | ⟨col, _, _, row, _, _, a0, a1, a2, a3⟩ |
      ⟨row, _, _, col, _, _, a0, a1, a2, a3⟩ | ⟨row, _, _, col, _, _, a0, a1, a2, a3⟩)
    · refine ⟨row, col, 0, 1, Or.inl ⟨rfl, rfl⟩, (fourFrom_iff hg _ _ _ _ _).mpr ?_⟩
      simp only [mul_zero, add_zero, mul_one]
      exact ⟨a0, a1, a2, a3⟩
    · refine ⟨row, col, 1, 0, Or.inr (Or.inl ⟨rfl, rfl⟩), (fourFrom_iff hg _ _ _ _ _).mpr ?_⟩
      simp only [mul_zero, add_zero, mul_one]
      exact ⟨a0, a1, a2, a3⟩
    · refine ⟨row, col, -1, 1, Or.inr (Or.inr (Or.inr ⟨rfl, rfl⟩)),
        (fourFrom_iff hg _ _ _ _ _).mpr ?_⟩
      have e1 : row + -1 = row - 1 := by omega
      have e2 : row + 2 * -1 = row - 2 := by omega
      have e3 : row + 3 * -1 = row - 3 := by omega
      rw [e1, e2, e3]
      simp only [mul_one]
      exact ⟨a0, a1, a2, a3⟩
    · refine ⟨row, col, 1, 1, Or.inr (Or.inr (Or.inl ⟨rfl, rfl⟩)),
        (fourFrom_iff hg _ _ _ _ _).mpr ?_⟩
      simp only [mul_one]
      exact ⟨a0, a1, a2, a3⟩
  · rintro ⟨r, c, dr, dc, hd, hf⟩
    have hb := hf
    rw [fourFrom_iff hg] at hf
    obtain ⟨a0, a1, a2, a3⟩ := hf
    have b0 := hb 0 (by omega) (by omega)
    have b3 := hb 3 (by omega) (by omega)
    rcases hd with ⟨rfl, rfl⟩ | ⟨rfl, rfl⟩ | ⟨rfl, rfl⟩ | ⟨rfl, rfl⟩
    · simp only [mul_zero, add_zero, mul_one, zero_mul] at a0 a1 a2 a3 b0 b3
      exact Or.inl ⟨r, by omega, by omega, c, by omega, by omega, a0, a1, a2, a3⟩
    · simp only [mul_zero, add_zero, mul_one, zero_mul] at a0 a1 a2 a3 b0 b3
      exact Or.inr (Or.inl ⟨c, by omega, by omega, r, by omega, by omega, a0, a1, a2, a3⟩)
    · simp only [mul_zero, add_zero, mul_one, zero_mul] at a0 a1 a2 a3 b0 b3
      exact Or.inr (Or.inr (Or.inr
        ⟨r, by omega, by omega, c, by omega, by omega, a0, a1, a2, a3⟩))
    · have e1 : r + -1 = r - 1 := by omega
      have e2 : r + 2 * -1 = r - 2 := by omega
      have e3 : r + 3 * -1 = r - 3 := by omega
      rw [e1] at a1
      rw [e2] at a2
      rw [e3] at a3
      simp only [mul_zero, add_zero, mul_one, zero_mul] at a0 a1 a2 a3 b0 b3
      exact Or.inr (Or.inr (Or.inl
        ⟨r, by omega, by omega, c, by omega, by omega, a0, a1, a2, a3⟩))

/-! ## `MakeMove` -/

theorem occupied_iff {g : Game} {r c : Int} :
    Occupied g r c ↔ ∃ v, cell g r c = some v ∧ v ≠ 0 := by
  unfold Occupied
  cases h : cell g r c with
  | none => simp
  | some v => simp

theorem scan_spec {g : Game} (hg : Rect g) {col : Int} (h0 : 0 ≤ col) (h1 : col < g.columns)
    (n : Nat) (hn : (n : Int) ≤ g.rows) :
    ((∀ r : Int, 0 ≤ r → r < n → cell g r col ≠ some 0) ∧
        MakeMove.scan g col n = some (g, false)) ∨
      ∃ r : Int, 0 ≤ r ∧ r < n ∧ cell g r col = some 0 ∧
        (∀ r1 : Int, r < r1 → r1 < n → cell g r1 col ≠ some 0) ∧
        MakeMove.scan g col n =
          some ({ g with board := setCell g.board r col g.player }, true) := by
  induction n with
  | zero =>
    left
    exact ⟨fun r _ _ => by omega, rfl⟩
  | succ n ih =>
    obtain ⟨v, hv⟩ := cell_of_bounds hg (r := (n : Int)) (by omega) (by omega) h0 h1
    by_cases hz : v = 0
    · right
      subst hz
      refine ⟨(n : Int), by omega, by omega, hv, fun r1 _ _ => by omega, ?_⟩
      simp [MakeMove.scan, hv]
    · have hstep : MakeMove.scan g col (n + 1) = MakeMove.scan g col n := by
        simp [MakeMove.scan, hv, hz]
      rcases ih (by omega) with ⟨hall, hres⟩ | ⟨r, hr0, hr1, hr, hup, hres⟩
      · left
        refine ⟨fun r hr0 hr1 => ?_, by rw [hstep, hres]⟩
        by_cases hrn : r = (n : Int)
        · subst hrn
          rw [hv]
          simpa using hz
        · exact hall r hr0 (by omega)
      · right
        refine ⟨r, hr0, by omega, hr, fun r1 h2 h3 => ?_, by rw [hstep, hres]⟩
        by_cases hrn : r1 = (n : Int)
        · subst hrn
          rw [hv]
          simpa using hz
        · exact hup r1 h2 (by omega)

theorem MakeMove_spec {g : Game} (hg : Rect g) {col : Int} (h0 : 0 ≤ col)
    (h1 : col < g.columns) :
    ((∀ r : Int, 0 ≤ r → r < g.rows → cell g r col ≠ some 0) ∧
        MakeMove g col = some (g, false)) ∨
      ∃ r : Int, 0 ≤ r ∧ r < g.rows ∧ cell g r col = some 0 ∧
        (∀ r1 : Int, r < r1 → r1 < g.rows → cell g r1 col ≠ some 0) ∧
        MakeMove g col = some ({ g with board := setCell g.board r col g.player }, true) := by
  have hrows : ((g.rows.toNat : Nat) : Int) = g.rows := by
    have := hg.1
    omega
  have h := scan_spec hg h0 h1 g.rows.toNat (by omega)
  rw [hrows] at h
  exact h

theorem occupied_setCell {g : Game} {r c p : Int} (hp : p ≠ 0) (h : cell g r c = some 0)
    (h0 : 0 ≤ r) (h1 : 0 ≤ c) (r1 c1 : Int) :
    Occupied { g with board := setCell g.board r c p } r1 c1 ↔
      (r1 = r ∧ c1 = c) ∨ Occupied g r1 c1 := by
  by_cases he : r1 = r ∧ c1 = c
  · obtain ⟨rfl, rfl⟩ := he
    have := cell_setCell_same p h
    simp [occupied_iff, this, hp]
  · have hne : r1 ≠ r ∨ c1 ≠ c := by
      by_cases hr : r1 = r
      · exact Or.inr (fun hc => he ⟨hr, hc⟩)
      · exact Or.inl hr
    have := cell_setCell_other (g := g) p h0 h1 hne
    simp only [Occupied, this, he, false_or]

theorem gravity_setCell {g : Game} (hg : Rect g) (hgr : Gravity g) {r c p : Int} (hp : p ≠ 0)
    (h : cell g r c = some 0)
    (hup : ∀ r1 : Int, r < r1 → r1 < g.rows → cell g r1 c ≠ some 0) :
    Gravity { g with board := setCell g.board r c p } := by
  have hb := cell_bounds hg h
  intro a c1 b hocc hab hb1
  rw [occupied_setCell hp h hb.1 hb.2.2.1] at hocc ⊢
  have hrows : ({ g with board := setCell g.board r c p } : Game).rows = g.rows := rfl
  rw [hrows] at hb1
  rcases hocc with ⟨rfl, rfl⟩ | hocc
  · right
    obtain ⟨v, hv⟩ := cell_of_bounds hg (r := b) (c := c1) (by omega) hb1 hb.2.2.1 hb.2.2.2
    rw [occupied_iff]
    refine ⟨v, hv, ?_⟩
    rintro rfl
    exact hup b hab hb1 hv
  · exact Or.inr (hgr a c1 b hocc hab hb1)

theorem gravity_of_check {g : Game} (hg : Rect g) (h : GravityCheck g) : Gravity g := by
  intro r c r1 hocc hlt hr1
  obtain ⟨v, hv, _⟩ := occupied_iff.mp hocc
  have hb := cell_bounds hg hv
  have := h c.toNat (by omega) r.toNat (by omega) r1.toNat (by omega) (by omega)
  have e1 : ((c.toNat : Nat) : Int) = c := by omega
  have e2 : ((r.toNat : Nat) : Int) = r := by omega
  have e3 : ((r1.toNat : Nat) : Int) = r1 := by omega
  rw [e1, e2, e3] at this
  exact this hocc

/-! ## Counting pieces -/

theorem countP_set_zero (p : Int) (hp : p ≠ 0) (row : List Int) (n : Nat)
    (h : row[n]? = some 0) :
    (row.set n p).countP (fun v => decide (v ≠ 0)) =
      row.countP (fun v => decide (v ≠ 0)) + 1 := by
  induction row generalizing n with
  | nil => simp at h
  | cons a row ih =>
    cases n with
    | zero =>
      simp only [List.getElem?_cons_zero, Option.some.injEq] at h
      subst h
      simp [List.countP_cons, hp]
    | succ n =>
      simp only [List.getElem?_cons_succ] at h
      simp only [List.set_cons_succ, List.countP_cons, ih n h]
      omega

theorem sum_modify (cnt : List Int → Nat) (f : List Int → List Int) (b : List (List Int))
    (n : Nat) (row : List Int) (h : b[n]? = some row) (hf : cnt (f row) = cnt row + 1) :
    ((b.modify f n).map cnt).sum = (b.map cnt).sum + 1 := by
  induction b generalizing n with
  | nil => simp at h
  | cons a b ih =>
    cases n with
    | zero =>
      simp only [List.getElem?_cons_zero, Option.some.injEq] at h
      subst h
      simp only [List.modify_zero_cons, List.map_cons, List.sum_cons, hf]
      omega
    | succ n =>
      simp only [List.getElem?_cons_succ] at h
      simp only [List.modify_succ_cons, List.map_cons, List.sum_cons, ih n h]
      omega

theorem pieces_setCell {g : Game} {r c p : Int} (hp : p ≠ 0) (h : cell g r c = some 0) :
    pieces { g with board := setCell g.board r c p } = pieces g + 1 := by
  obtain ⟨row, hr, hc⟩ := cell_eq_some.mp h
  rw [index_eq_some] at hr hc
  unfold pieces setCell
  exact sum_modify _ _ g.board r.toNat row hr.2 (countP_set_zero p hp row c.toNat hc.2)

theorem sum_countP_le (b : List (List Int)) (n : Nat) (h : ∀ row ∈ b, row.length = n) :
    (b.map (fun row => row.countP (fun v => decide (v ≠ 0)))).sum ≤ b.length * n := by
  induction b with
  | nil => simp
  | cons a b ih =>
    have h1 := ih (fun row hrow => h row (List.mem_cons_of_mem a hrow))
    have h2 : a.countP (fun v => decide (v ≠ 0)) ≤ n := by
      rw [← h a (List.mem_cons_self a b)]
      exact List.countP_le_length _
    simp only [List.map_cons, List.sum_cons, List.length_cons, Nat.add_mul, Nat.one_mul]
    omega

theorem countP_lt_of_zero (row : List Int) (j : Nat) (h : row[j]? = some 0) :
    row.countP (fun v => decide (v ≠ 0)) < row.length := by
  rw [List.length_eq_countP_add_countP (p := fun v : Int => decide (v ≠ 0)) row]
  apply Nat.lt_add_of_pos_right
  rw [List.countP_pos_iff]
  exact ⟨0, List.getElem?_mem h, by simp⟩

theorem sum_countP_lt (b : List (List Int)) (n : Nat) (h : ∀ row ∈ b, row.length = n)
    (i j : Nat) (row : List Int) (hi : b[i]? = some row) (hj : row[j]? = some 0) :
    (b.map (fun row => row.countP (fun v => decide (v ≠ 0)))).sum < b.length * n := by
  induction b generalizing i with
  | nil => simp at hi
  | cons a b ih =>
    have hb := fun row hrow => h row (List.mem_cons_of_mem a hrow)
    simp only [List.map_cons, List.sum_cons, List.length_cons, Nat.add_mul, Nat.one_mul]
    cases i with
    | zero =>
      simp only [List.getElem?_cons_zero, Option.some.injEq] at hi
      subst hi
      have h1 := countP_lt_of_zero a j hj
      rw [h a (List.mem_cons_self a b)] at h1
      have h2 := sum_countP_le b n hb
      omega
    | succ i =>
      simp only [List.getElem?_cons_succ] at hi
      have h1 := ih hb i hi
      have h2 : a.countP (fun v => decide (v ≠ 0)) ≤ n := by
        rw [← h a (List.mem_cons_self a b)]
        exact List.countP_le_length _
      omega

theorem rect_lengths {g : Game} (hg : Rect g) :
    g.board.length = g.rows.toNat ∧ ∀ row ∈ g.board, row.length = g.columns.toNat := by
  obtain ⟨h1, h3⟩ := hg
  refine ⟨by omega, fun row hrow => ?_⟩
  have := h3 row hrow
  omega

theorem pieces_le {g : Game} (hg : Rect g) : pieces g ≤ g.rows.toNat * g.columns.toNat := by
  have h := rect_lengths hg
  have := sum_countP_le g.board g.columns.toNat h.2
  rw [h.1] at this
  exact this

theorem pieces_lt_of_empty {g : Game} (hg : Rect g) {r c : Int} (h : cell g r c = some 0) :
    pieces g < g.rows.toNat * g.columns.toNat := by
  obtain ⟨row, hr, hc⟩ := cell_eq_some.mp h
  rw [index_eq_some] at hr hc
  have hl := rect_lengths hg
  have := sum_countP_lt g.board g.columns.toNat hl.2 r.toNat c.toNat row hr.2 hc.2
  rw [hl.1] at this
  exact this

/-! ## `NewGame` -/

theorem NewGame_eq {rows columns : Int} (mode : String) (h0 : 0 ≤ rows) (h1 : 0 ≤ columns) :
    ∃ g, NewGame rows columns mode = some g := by
  unfold NewGame
  rw [if_neg (by omega), if_neg (by omega)]
  exact ⟨_, rfl⟩

theorem NewGame_props {rows columns : Int} {mode : String} {g : Game}
    (h : NewGame rows columns mode = some g) :
    Rect g ∧ g.player = 1 ∧ g.rows = rows ∧ g.columns = columns ∧ g.mode = mode ∧
      g.connections = 0 ∧ (∀ r c v, cell g r c = some v → v = 0) ∧ pieces g = 0 ∧
      0 ≤ rows ∧ (rows = 0 ∨ 0 ≤ columns) := by
  unfold NewGame at h
  by_cases hr : rows < 0
  · simp [hr] at h
  · rw [if_neg hr] at h
    by_cases hc : 0 < rows ∧ columns < 0
    · simp [hc] at h
    · rw [if_neg hc] at h
      have hg := (Option.some.inj h).symm
      subst hg
      refine ⟨⟨?_, ?_⟩, rfl, rfl, rfl, rfl, rfl, ?_, ?_, by omega, by omega⟩
      · simp only [List.length_replicate]
        omega
      · intro row hrow
        obtain ⟨hne, hrow⟩ := List.mem_replicate.mp hrow
        rw [hrow]
        simp only [List.length_replicate]
        omega
      · intro r c v hv
        obtain ⟨row, hr, hc⟩ := cell_eq_some.mp hv
        have hrow := (index_bounds hr).2.2
        rw [(List.mem_replicate.mp hrow).2] at hc
        exact (List.mem_replicate.mp (index_bounds hc).2.2).2
      · unfold pieces
        simp

theorem gravity_of_empty {g : Game} (h : ∀ r c v, cell g r c = some v → v = 0) :
    Gravity g := by
  intro r c r1 hocc _ _
  obtain ⟨v, hv, hne⟩ := occupied_iff.mp hocc
  exact absurd (h r c v hv) hne

/-! ## `IsDraw` -/

theorem firstTrue_eq_false {body : Int → Option Bool} (l : List Int) :
    firstTrue body l = some false ↔ ∀ i ∈ l, body i = some false := by
  induction l with
  | nil => simp [firstTrue]
  | cons a l ih =>
    cases hb : body a with
    | none => simp [firstTrue, hb]
    | some b =>
      cases b with
      | true => simp [firstTrue, hb]
      | false => simp [firstTrue, hb, ih]

theorem IsDraw_eq_true_iff (g : Game) :
    IsDraw g = some true ↔ ∀ c : Int, 0 ≤ c → c < g.columns → Occupied g 0 c := by
  have h1 : IsDraw g = some true ↔
      loopLt 0 g.columns (fun i => (cell g 0 i).map (fun v => decide (v = 0))) =
        some false := by
    unfold IsDraw
    cases loopLt 0 g.columns (fun i => (cell g 0 i).map (fun v => decide (v = 0))) with
    | none => simp
    | some b => cases b <;> simp
  rw [h1]
  unfold loopLt
  rw [firstTrue_eq_false]
  constructor
  · intro h c hc0 hc1
    have := h c (mem_upTo.mpr ⟨hc0, hc1⟩)
    rw [occupied_iff]
    cases hv : cell g 0 c with
    | none => simp [hv] at this
    | some v =>
      simp only [hv, Option.map_some', Option.some.injEq, decide_eq_false_iff_not] at this
      exact ⟨v, rfl, this⟩
  · intro h i hi
    obtain ⟨v, hv, hne⟩ := occupied_iff.mp (h i (mem_upTo.mp hi).1 (mem_upTo.mp hi).2)
    simp [hv, hne]

theorem IsDraw_returns {g : Game} (hg : Rect g) (hr : 0 < g.rows) :
    Returns (IsDraw g) (∀ c : Int, 0 ≤ c → c < g.columns → Occupied g 0 c) := by
  have hloop : Returns
      (loopLt 0 g.columns (fun i => (cell g 0 i).map (fun v => decide (v = 0))))
      (∃ i, 0 ≤ i ∧ i < g.columns ∧ cell g 0 i = some 0) := by
    refine loopLt_returns (fun i h0 h1 => ?_)
    obtain ⟨v, hv⟩ := cell_of_bounds hg (r := 0) (c := i) (by omega) hr h0 h1
    exact ⟨decide (v = 0), by simp [hv], by simp [hv]⟩
  obtain ⟨b, hb, hP⟩ := hloop
  refine ⟨!b, by simp [IsDraw, hb], ?_⟩
  rw [← IsDraw_eq_true_iff]
  simp [IsDraw, hb]

theorem top_full_iff {g : Game} (hr : 0 < g.rows) (hgr : Gravity g) :
    (∀ c : Int, 0 ≤ c → c < g.columns → Occupied g 0 c) ↔
      ∀ r c : Int, 0 ≤ r → r < g.rows → 0 ≤ c → c < g.columns → Occupied g r c := by
  constructor
  · intro h r c hr0 hr1 hc0 hc1
    by_cases hz : r = 0
    · subst hz
      exact h c hc0 hc1
    · exact hgr 0 c r (h c hc0 hc1) (by omega) hr1
  · intro h c hc0 hc1
    exact h 0 c (by omega) hr hc0 hc1

/-! ## Effect of one `MakeMove` -/

theorem scan_false {g g1 : Game} {col : Int} (n : Nat)
    (h : MakeMove.scan g col n = some (g1, false)) : g1 = g := by
  induction n with
  | zero =>
    simp only [MakeMove.scan, Option.some.injEq, Prod.mk.injEq] at h
    exact h.1.symm
  | succ n ih =>
    unfold MakeMove.scan at h
    cases hv : cell g (n : Int) col with
    | none => simp [hv] at h
    | some v =>
      simp only [hv] at h
      by_cases hz : v = 0
      · simp [hz] at h
      · simp only [hz, if_false] at h
        exact ih h

theorem scan_fields {g g1 : Game} {col : Int} {ok : Bool} (n : Nat)
    (h : MakeMove.scan g col n = some (g1, ok)) :
    g1.player = g.player ∧ g1.rows = g.rows ∧ g1.columns = g.columns ∧ g1.mode = g.mode ∧
      g1.connections = g.connections := by
  induction n with
  | zero =>
    simp only [MakeMove.scan, Option.some.injEq, Prod.mk.injEq] at h
    rw [← h.1]
    exact ⟨rfl, rfl, rfl, rfl, rfl⟩
  | succ n ih =>
    unfold MakeMove.scan at h
    cases hv : cell g (n : Int) col with
    | none => simp [hv] at h
    | some v =>
      simp only [hv] at h
      by_cases hz : v = 0
      · simp only [hz, if_true, Option.some.injEq, Prod.mk.injEq] at h
        rw [← h.1]
        exact ⟨rfl, rfl, rfl, rfl, rfl⟩
      · simp only [hz, if_false] at h
        exact ih h

theorem MakeMove_true {g g1 : Game} (hg : Rect g) {col : Int} (h0 : 0 ≤ col)
    (h1 : col < g.columns) (h : MakeMove g col = some (g1, true)) :
    ∃ r : Int, 0 ≤ r ∧ r < g.rows ∧ cell g r col = some 0 ∧
      (∀ r1 : Int, r < r1 → r1 < g.rows → cell g r1 col ≠ some 0) ∧
      g1 = { g with board := setCell g.board r col g.player } := by
  rcases MakeMove_spec hg h0 h1 with ⟨_, hres⟩ | ⟨r, hr0, hr1, hr, hup, hres⟩
  · rw [hres] at h
    simp at h
  · rw [hres] at h
    simp only [Option.some.injEq, Prod.mk.injEq, and_true] at h
    exact ⟨r, hr0, hr1, hr, hup, h.symm⟩

theorem MakeMove_total {g : Game} (hg : Rect g) {col : Int} (h0 : 0 ≤ col)
    (h1 : col < g.columns) : ∃ g1 ok, MakeMove g col = some (g1, ok) := by
  rcases MakeMove_spec hg h0 h1 with ⟨_, hres⟩ | ⟨r, _, _, _, _, hres⟩
  · exact ⟨_, _, hres⟩
  · exact ⟨_, _, hres⟩

theorem MakeMove_effect {g g1 : Game} {ok : Bool} (hg : Rect g)
    (hp : g.player = 1 ∨ g.player = 2) {col : Int} (h0 : 0 ≤ col) (h1 : col < g.columns)
    (h : MakeMove g col = some (g1, ok)) :
    Rect g1 ∧ g1.player = g.player ∧ g1.rows = g.rows ∧ g1.columns = g.columns ∧
      (Gravity g → Gravity g1) ∧ pieces g1 = pieces g + (if ok then 1 else 0) ∧
      (ok = false → g1 = g) := by
  have hne : g.player ≠ 0 := by omega
  cases ok with
  | false =>
    have := scan_false _ h
    subst this
    exact ⟨hg, rfl, rfl, rfl, id, by simp, fun _ => rfl⟩
  | true =>
    obtain ⟨r, hr0, hr1, hr, hup, rfl⟩ := MakeMove_true hg h0 h1 h
    refine ⟨rect_setCell hg _ _ _, rfl, rfl, rfl, fun hgr => gravity_setCell hg hgr hne hr hup,
      ?_, fun hf => Bool.noConfusion hf⟩
    simpa using pieces_setCell hne hr

theorem hasFour_setCell {g : Game} {r c p q : Int} (hqp : q ≠ p) (h : cell g r c = some 0)
    (h0 : 0 ≤ r) (h1 : 0 ≤ c)
    (hf : HasFour { g with board := setCell g.board r c p } q) : HasFour g q := by
  obtain ⟨r0, c0, dr, dc, hd, hline⟩ := hf
  refine ⟨r0, c0, dr, dc, hd, fun k hk0 hk3 => ?_⟩
  obtain ⟨b1, b2, b3, b4, hc⟩ := hline k hk0 hk3
  refine ⟨b1, b2, b3, b4, ?_⟩
  by_cases he : r0 + k * dr = r ∧ c0 + k * dc = c
  · rw [he.1, he.2, cell_setCell_same p h] at hc
    exact absurd (Option.some.inj hc).symm hqp
  · have hne : r0 + k * dr ≠ r ∨ c0 + k * dc ≠ c := by
      by_cases hr : r0 + k * dr = r
      · exact Or.inr (fun hcc => he ⟨hr, hcc⟩)
      · exact Or.inl hr
    rw [cell_setCell_other (g := g) p h0 h1 hne] at hc
    exact hc

theorem SwitchPlayer_fields (g : Game) :
    (SwitchPlayer g).board = g.board ∧ (SwitchPlayer g).rows = g.rows ∧
      (SwitchPlayer g).columns = g.columns ∧ (SwitchPlayer g).mode = g.mode ∧
      (SwitchPlayer g).connections = g.connections ∧
      (SwitchPlayer g).player = (if g.player = 1 then 2 else 1) := by
  unfold SwitchPlayer
  split <;> exact ⟨rfl, rfl, rfl, rfl, rfl, rfl⟩

/-- Properties that only depend on the board and its dimensions carry over between games
that agree on them. -/
theorem board_props_congr {g g1 : Game} (hb : g1.board = g.board) (hr : g1.rows = g.rows)
    (hc : g1.columns = g.columns) :
    (Rect g1 ↔ Rect g) ∧ (Gravity g1 ↔ Gravity g) ∧ pieces g1 = pieces g ∧
      (∀ p, HasFour g1 p ↔ HasFour g p) ∧ (∀ r c, cell g1 r c = cell g r c) := by
  have hcell : ∀ r c, cell g1 r c = cell g r c := fun r c => by unfold cell; rw [hb]
  refine ⟨?_, ?_, ?_, ?_, hcell⟩
  · unfold Rect
    rw [hb, hr, hc]
  · unfold Gravity Occupied
    simp only [hcell, hr]
  · unfold pieces
    rw [hb]
  · intro p
    unfold HasFour FourFrom
    simp only [hcell, hr, hc]

/-! ## One iteration of a turn loop -/

theorem afterMove_cases {gm g1 : Game} {st : Step} (h : afterMove gm = some (g1, st)) :
    (st = Step.won ∧ g1 = gm ∧ CheckWin gm = some true) ∨
      (st = Step.drawn ∧ g1 = gm ∧ CheckWin gm = some false ∧ IsDraw gm = some true) ∨
      (st = Step.moved ∧ g1 = SwitchPlayer gm ∧ CheckWin gm = some false ∧
        IsDraw gm = some false) := by
  unfold afterMove at h
  obtain ⟨win, hwin, h⟩ := Option.bind_eq_some.mp h
  cases win with
  | true =>
    simp only [if_true, Option.some.injEq, Prod.mk.injEq] at h
    exact Or.inl ⟨h.2.symm, h.1.symm, hwin⟩
  | false =>
    simp only [Bool.false_eq_true, if_false] at h
    obtain ⟨draw, hdraw, h⟩ := Option.bind_eq_some.mp h
    cases draw with
    | true =>
      simp only [if_true, Option.some.injEq, Prod.mk.injEq] at h
      exact Or.inr (Or.inl ⟨h.2.symm, h.1.symm, hwin, hdraw⟩)
    | false =>
      simp only [Bool.false_eq_true, if_false, Option.some.injEq, Prod.mk.injEq] at h
      exact Or.inr (Or.inr ⟨h.2.symm, h.1.symm, hwin, hdraw⟩)

theorem check_cases {g g1 : Game} {col : Int} {err : Bool} {st : Step}
    (h : Play.check g col err = some (g1, st)) :
    (g1 = g ∧ st = Step.again) ∨
      ∃ c gm, 0 ≤ c ∧ c < g.columns ∧ MakeMove g c = some (gm, true) ∧
        afterMove gm = some (g1, st) := by
  unfold Play.check at h
  by_cases herr : err = false
  · rw [if_pos herr] at h
    by_cases hrange : col < 1 ∨ col > g.columns
    · rw [if_pos hrange] at h
      obtain ⟨_, _, h⟩ := Option.map_eq_some'.mp h
      simp only [Prod.mk.injEq] at h
      exact Or.inl ⟨h.1.symm, h.2.symm⟩
    · rw [if_neg hrange] at h
      obtain ⟨⟨gm, ok⟩, hmove, h⟩ := Option.bind_eq_some.mp h
      cases ok with
      | false =>
        simp only [if_true] at h
        obtain ⟨_, _, h⟩ := Option.map_eq_some'.mp h
        simp only [Prod.mk.injEq] at h
        have := scan_false _ hmove
        exact Or.inl ⟨by rw [← h.1, this], h.2.symm⟩
      | true =>
        simp only [Bool.true_eq_false, if_false] at h
        obtain ⟨_, _, h⟩ := Option.bind_eq_some.mp h
        obtain ⟨_, _, h⟩ := Option.bind_eq_some.mp h
        exact Or.inr ⟨col - 1, gm, by omega, by omega, hmove, h⟩
  · rw [if_neg herr] at h
    obtain ⟨_, _, h⟩ := Option.map_eq_some'.mp h
    simp only [Prod.mk.injEq] at h
    exact Or.inl ⟨h.1.symm, h.2.symm⟩

theorem Play_iter_cases {g g1 : Game} {env : Env} {st : Step}
    (h : Play.iter g env = some (g1, st)) :
    (g1 = g ∧ (st = Step.again ∨ st = Step.quit)) ∨
      ∃ c gm, 0 ≤ c ∧ c < g.columns ∧ MakeMove g c = some (gm, true) ∧
        afterMove gm = some (g1, st) := by
  unfold Play.iter at h
  obtain ⟨s, _, h⟩ := Option.bind_eq_some.mp h
  cases s with
  | none =>
    simp only [Option.some.injEq, Prod.mk.injEq] at h
    exact Or.inl ⟨h.1.symm, Or.inr h.2.symm⟩
  | some r =>
    rcases check_cases h with ⟨h1, h2⟩ | h1
    · exact Or.inl ⟨h1, Or.inl h2⟩
    · exact Or.inr h1

theorem PlayLocal_iter_cases {g g1 : Game} {env : Env} {st : Step}
    (h : PlayLocal.iter g env = some (g1, st)) :
    (g1 = g ∧ (st = Step.again ∨ st = Step.quit)) ∨
      ∃ c gm, 0 ≤ c ∧ c < g.columns ∧ MakeMove g c = some (gm, true) ∧
        afterMove gm = some (g1, st) := by
  unfold PlayLocal.iter at h
  obtain ⟨s, _, h⟩ := Option.bind_eq_some.mp h
  cases s with
  | none =>
    simp only [Option.some.injEq, Prod.mk.injEq] at h
    exact Or.inl ⟨h.1.symm, Or.inr h.2.symm⟩
  | some col =>
    simp only at h
    by_cases hrange : col < 1 ∨ col > g.columns
    · rw [if_pos hrange] at h
      simp only [Option.some.injEq, Prod.mk.injEq] at h
      exact Or.inl ⟨h.1.symm, Or.inl h.2.symm⟩
    · rw [if_neg hrange] at h
      obtain ⟨⟨gm, ok⟩, hmove, h⟩ := Option.bind_eq_some.mp h
      cases ok with
      | false =>
        simp only [if_true, Option.some.injEq, Prod.mk.injEq] at h
        have := scan_false _ hmove
        exact Or.inl ⟨by rw [← h.1, this], Or.inl h.2.symm⟩
      | true =>
        simp only [Bool.true_eq_false, if_false] at h
        obtain ⟨_, _, h⟩ := Option.bind_eq_some.mp h
        exact Or.inr ⟨col - 1, gm, by omega, by omega, hmove, h⟩

theorem iter_norm {g g1 : Game} {st : Step}
    (h : (g1 = g ∧ (st = Step.again ∨ st = Step.quit)) ∨
      ∃ c gm, 0 ≤ c ∧ c < g.columns ∧ MakeMove g c = some (gm, true) ∧
        afterMove gm = some (g1, st)) :
    (g1 = g ∧ (st = Step.again ∨ st = Step.quit)) ∨
      ∃ c gm, 0 ≤ c ∧ c < g.columns ∧ MakeMove g c = some (gm, true) ∧
        ((st = Step.won ∧ g1 = gm ∧ CheckWin gm = some true) ∨
          (st = Step.drawn ∧ g1 = gm ∧ CheckWin gm = some false ∧ IsDraw gm = some true) ∨
          (st = Step.moved ∧ g1 = SwitchPlayer gm ∧ CheckWin gm = some false ∧
            IsDraw gm = some false)) := by
  rcases h with h | ⟨c, gm, h0, h1, hm, ha⟩
  · exact Or.inl h
  · exact Or.inr ⟨c, gm, h0, h1, hm, afterMove_cases ha⟩

/-! ## Invariants of a turn loop -/

theorem runLoop_induct (iter : Game → Env → Option (Game × Step)) (Q F : Game → Nat → Prop)
    (hagain : ∀ g n env g1, Q g n → iter g env = some (g1, Step.again) → Q g1 n)
    (hmoved : ∀ g n env g1, Q g n → iter g env = some (g1, Step.moved) → Q g1 (n + 1))
    (hfinal : ∀ g n env g1 st, Q g n → iter g env = some (g1, st) → st ≠ Step.again →
      st ≠ Step.moved → F g1 n) :
    ∀ (envs : List Env) (g : Game) (n : Nat) (run : Run), Q g n →
      runLoop iter g n envs = some run →
      (run.finished = false → Q run.game run.moves) ∧
        (run.finished = true → F run.game run.moves) := by
  intro envs
  induction envs with
  | nil =>
    intro g n run hQ h
    simp only [runLoop, Option.some.injEq] at h
    subst h
    exact ⟨fun _ => hQ, fun hf => Bool.noConfusion hf⟩
  | cons env rest ih =>
    intro g n run hQ h
    cases hi : iter g env with
    | none => simp [runLoop, hi] at h
    | some res =>
      obtain ⟨g1, st⟩ := res
      cases st with
      | again =>
        simp only [runLoop, hi] at h
        exact ih g1 n run (hagain g n env g1 hQ hi) h
      | moved =>
        simp only [runLoop, hi] at h
        exact ih g1 (n + 1) run (hmoved g n env g1 hQ hi) h
      | won =>
        simp only [runLoop, hi, Option.some.injEq] at h
        subst h
        exact ⟨fun hf => Bool.noConfusion hf,
          fun _ => hfinal g n env g1 Step.won hQ hi (by decide) (by decide)⟩
      | drawn =>
        simp only [runLoop, hi, Option.some.injEq] at h
        subst h
        exact ⟨fun hf => Bool.noConfusion hf,
          fun _ => hfinal g n env g1 Step.drawn hQ hi (by decide) (by decide)⟩
      | quit =>
        simp only [runLoop, hi, Option.some.injEq] at h
        subst h
        exact ⟨fun hf => Bool.noConfusion hf,
          fun _ => hfinal g n env g1 Step.quit hQ hi (by decide) (by decide)⟩

/-- The player after one iteration, for a body of the shape shared by both turn loops. -/
theorem iter_player {g g1 : Game} {st : Step}
    (h : (g1 = g ∧ (st = Step.again ∨ st = Step.quit)) ∨
      ∃ c gm, 0 ≤ c ∧ c < g.columns ∧ MakeMove g c = some (gm, true) ∧
        afterMove gm = some (g1, st)) :
    g1.player = if st = Step.moved then (if g.player = 1 then 2 else 1) else g.player := by
  rcases iter_norm h with ⟨rfl, hst⟩ | ⟨c, gm, _, _, hm, hcase⟩
  · rcases hst with rfl | rfl <;> simp
  · have hf := (scan_fields _ hm).1
    rcases hcase with ⟨rfl, rfl, _⟩ | ⟨rfl, rfl, _⟩ | ⟨rfl, rfl, _⟩
    · simpa using hf
    · simpa using hf
    · rw [(SwitchPlayer_fields gm).2.2.2.2.2, hf]
      simp

theorem runLoop_parity (iter : Game → Env → Option (Game × Step))
    (hiter : ∀ g env g1 st, iter g env = some (g1, st) →
      (g1 = g ∧ (st = Step.again ∨ st = Step.quit)) ∨
        ∃ c gm, 0 ≤ c ∧ c < g.columns ∧ MakeMove g c = some (gm, true) ∧
          afterMove gm = some (g1, st))
    (envs : List Env) (g : Game) (run : Run) (hp : g.player = 1)
    (h : runLoop iter g 0 envs = some run) :
    run.game.player = if run.moves % 2 = 0 then 1 else 2 := by
  have key := runLoop_induct iter
    (fun g n => g.player = if n % 2 = 0 then 1 else 2)
    (fun g n => g.player = if n % 2 = 0 then 1 else 2)
    (fun g n env g1 hQ hi => by
      have := iter_player (hiter g env g1 _ hi)
      simpa [hQ] using this)
    (fun g n env g1 hQ hi => by
      have := iter_player (hiter g env g1 _ hi)
      simp only [if_true] at this
      have hQ1 : g.player = if n % 2 = 0 then 1 else 2 := hQ
      show g1.player = if (n + 1) % 2 = 0 then 1 else 2
      rw [this, hQ1]
      rcases Nat.mod_two_eq_zero_or_one n with h0 | h1
      · have : (n + 1) % 2 = 1 := by omega
        simp [h0, this]
      · have : (n + 1) % 2 = 0 := by omega
        simp [h1, this])
    (fun g n env g1 st hQ hi h1 h2 => by
      have := iter_player (hiter g env g1 _ hi)
      rw [if_neg h2] at this
      have hQ1 : g.player = if n % 2 = 0 then 1 else 2 := hQ
      show g1.player = if n % 2 = 0 then 1 else 2
      rw [this, hQ1])
    envs g 0 run (by simp [hp]) h
  cases hf : run.finished with
  | false => exact key.1 hf
  | true => exact key.2 hf

/-! ## The board contract -/

/-- C1. On every rectangular board, `CheckWin` returns a boolean, and it returns `true` if and
only if there are a start cell `(r, c)` and a direction among horizontal `(0,+1)`, vertical
`(+1,0)`, diagonal down-right `(+1,+1)` and diagonal up-right `(-1,+1)` such that the four
cells `(r + k*dr, c + k*dc)`, `k = 0..3`, all lie on the board and all hold the current
player.  This holds for every value of the player field, in particular for 1 and 2. -/
theorem CheckWin_iff_four_aligned (g : Game) (hg : Rect g) :
    ∃ b, CheckWin g = some b ∧
      (b = true ↔
        ∃ r c dr dc : Int,
          ((dr = 0 ∧ dc = 1) ∨ (dr = 1 ∧ dc = 0) ∨ (dr = 1 ∧ dc = 1) ∨ (dr = -1 ∧ dc = 1)) ∧
            ∀ k : Int, 0 ≤ k → k ≤ 3 →
              0 ≤ r + k * dr ∧ r + k * dr < g.rows ∧ 0 ≤ c + k * dc ∧
                c + k * dc < g.columns ∧ cell g (r + k * dr) (c + k * dc) = some g.player) :=
  CheckWin_returns hg

theorem CheckWin_iff_four_aligned_witness :
    Rect sample ∧ ∃ b, CheckWin sample = some b ∧ (b = true ↔ HasFour sample 1) :=
  ⟨by decide, CheckWin_iff_four_aligned sample (by decide)⟩

/-- C2. On every rectangular board, for every column index `col` in `[0, columns)` that
contains an empty cell, `MakeMove col` returns `true`; the cell it writes is the empty cell of
that column with the greatest row index, it holds the current player afterwards, every other
cell is unchanged, and so are all fields of the game other than the board (the current player
among them).  This holds for every value of the player field, in particular for 1 and 2. -/
theorem MakeMove_places_in_lowest_empty (g : Game) (col : Int) (hg : Rect g)
    (h0 : 0 ≤ col) (h1 : col < g.columns) (hempty : ∃ r, cell g r col = some 0) :
    ∃ g1 r, MakeMove g col = some (g1, true) ∧
      0 ≤ r ∧ r < g.rows ∧ cell g r col = some 0 ∧
      (∀ r1 : Int, r < r1 → r1 < g.rows → cell g r1 col ≠ some 0) ∧
      cell g1 r col = some g.player ∧
      (∀ r1 c1 : Int, r1 ≠ r ∨ c1 ≠ col → cell g1 r1 c1 = cell g r1 c1) ∧
      g1.player = g.player ∧ { g1 with board := g.board } = g := by
  rcases MakeMove_spec hg h0 h1 with ⟨hall, _⟩ | ⟨r, hr0, hr1, hr, hup, hres⟩
  · obtain ⟨r, hr⟩ := hempty
    have hb := cell_bounds hg hr
    exact absurd hr (hall r hb.1 hb.2.1)
  · exact ⟨_, r, hres, hr0, hr1, hr, hup, cell_setCell_same _ hr,
      fun r1 c1 hne => cell_setCell_other _ hr0 h0 hne, rfl, rfl⟩

theorem MakeMove_places_in_lowest_empty_witness :
    Rect sample ∧ cell sample 0 3 = some 0 ∧
      ∃ g1 r, MakeMove sample 3 = some (g1, true) ∧ cell sample r 3 = some 0 ∧
        cell g1 r 3 = some 1 ∧ g1.player = 1 := by
  obtain ⟨g1, r, hm, _, _, he, _, hc, _, hp, _⟩ :=
    MakeMove_places_in_lowest_empty sample 3 (by decide) (by decide) (by decide)
      ⟨0, by decide⟩
  exact ⟨by decide, by decide, g1, r, hm, he, hc, hp⟩

/-- C3. On every rectangular board, for every column index `col` in `[0, columns)` in which no
cell is empty, `MakeMove col` returns `false` and the game after the call is the game before
it: every board cell and the current player are the same. -/
theorem MakeMove_full_column (g : Game) (col : Int) (hg : Rect g) (h0 : 0 ≤ col)
    (h1 : col < g.columns)
    (hfull : ∀ r : Int, 0 ≤ r → r < g.rows → cell g r col ≠ some 0) :
    MakeMove g col = some (g, false) := by
  rcases MakeMove_spec hg h0 h1 with ⟨_, hres⟩ | ⟨r, hr0, hr1, hr, _, _⟩
  · exact hres
  · exact absurd hr (hfull r hr0 hr1)

theorem MakeMove_full_column_witness :
    Rect drawn44 ∧ MakeMove drawn44 0 = some (drawn44, false) :=
  ⟨by decide, MakeMove_full_column drawn44 0 (by decide) (by decide) (by decide)
    (fun r h0 h1 => by
      have hr : r = 0 ∨ r = 1 ∨ r = 2 ∨ r = 3 := by
        have : r < 4 := h1
        omega
      rcases hr with rfl | rfl | rfl | rfl <;> decide)⟩

theorem runCalls_inv (calls : List Call) :
    ∀ (g : Game) (k : Nat), Rect g → (g.player = 1 ∨ g.player = 2) →
      (∀ col, Call.makeMove col ∈ calls → 0 ≤ col ∧ col < g.columns) →
      ∃ g1 k1, runCalls g k calls = some (g1, k1) ∧ Rect g1 ∧
        (g1.player = 1 ∨ g1.player = 2) ∧ g1.rows = g.rows ∧ g1.columns = g.columns ∧
        (Gravity g → Gravity g1) ∧ pieces g1 + k = pieces g + k1 := by
  induction calls with
  | nil =>
    intro g k hg hp _
    exact ⟨g, k, rfl, hg, hp, rfl, rfl, id, rfl⟩
  | cons call rest ih =>
    intro g k hg hp hcols
    cases call with
    | makeMove col =>
      obtain ⟨h0, h1⟩ := hcols col (List.mem_cons_self _ _)
      obtain ⟨gm, ok, hm⟩ := MakeMove_total hg h0 h1
      obtain ⟨e1, e2, e3, e4, e5, e6, _⟩ := MakeMove_effect hg hp h0 h1 hm
      obtain ⟨g1, k1, hrun, f1, f2, f3, f4, f5, f6⟩ :=
        ih gm (if ok then k + 1 else k) e1 (by rw [e2]; exact hp)
          (fun c hc => by rw [e4]; exact hcols c (List.mem_cons_of_mem _ hc))
      refine ⟨g1, k1, by simp [runCalls, hm, hrun], f1, f2, by rw [f3, e3], by rw [f4, e4],
        fun hgr => f5 (e5 hgr), ?_⟩
      cases ok <;> simp at e6 f6 <;> omega
    | switchPlayer =>
      obtain ⟨s1, s2, s3, _, _, s6⟩ := SwitchPlayer_fields g
      obtain ⟨c1, c2, c3, _, _⟩ := board_props_congr s1 s2 s3
      obtain ⟨g1, k1, hrun, f1, f2, f3, f4, f5, f6⟩ :=
        ih (SwitchPlayer g) k (c1.mpr hg) (by rw [s6]; split <;> simp)
          (fun c hc => by rw [s3]; exact hcols c (List.mem_cons_of_mem _ hc))
      exact ⟨g1, k1, by simp [runCalls, hrun], f1, f2, by rw [f3, s2], by rw [f4, s3],
        fun hgr => f5 (c2.mpr hgr), by rw [f6, c3]⟩

/-- C4. Gravity invariant.  `NewGame` returns a game for non-negative dimensions, and the
board of every game it returns satisfies the invariant; on a rectangular board with current
player 1 or 2, `MakeMove` with any in-range column returns and preserves it; so every
sequence of `MakeMove` calls with in-range columns and `SwitchPlayer` calls from a new game
runs to a game in which, for every column `c` and row `r`, if `board[r][c]` is non-empty then
`board[r1][c]` is non-empty for every `r1` with `r < r1 < rows`. -/
theorem gravity_invariant (rows columns : Int) (mode : String) :
    (0 ≤ rows → 0 ≤ columns → ∃ g0, NewGame rows columns mode = some g0) ∧
      (∀ (g : Game) (col : Int), Rect g → (g.player = 1 ∨ g.player = 2) → Gravity g →
        0 ≤ col → col < g.columns →
        ∃ g1 ok, MakeMove g col = some (g1, ok) ∧ Gravity g1) ∧
      ∀ g0, NewGame rows columns mode = some g0 →
        Gravity g0 ∧
          ∀ calls : List Call,
            (∀ col, Call.makeMove col ∈ calls → 0 ≤ col ∧ col < columns) →
            ∃ g k, runCalls g0 0 calls = some (g, k) ∧
              ∀ r c r1 : Int, Occupied g r c → r < r1 → r1 < rows → Occupied g r1 c := by
  refine ⟨NewGame_eq mode, ?_, ?_⟩
  · intro g col hg hp hgr h0 h1
    obtain ⟨g1, ok, hm⟩ := MakeMove_total hg h0 h1
    exact ⟨g1, ok, hm, (MakeMove_effect hg hp h0 h1 hm).2.2.2.2.1 hgr⟩
  · intro g0 hnew
    obtain ⟨hg0, hp0, hr0, hc0, _, _, hempty, _⟩ := NewGame_props hnew
    refine ⟨gravity_of_empty hempty, fun calls hcols => ?_⟩
    obtain ⟨g, k, hrun, _, _, f3, _, f5, _⟩ :=
      runCalls_inv calls g0 0 hg0 (Or.inl hp0) (fun c hc => by rw [hc0]; exact hcols c hc)
    refine ⟨g, k, hrun, fun r c r1 hocc hlt hr1 => ?_⟩
    exact f5 (gravity_of_empty hempty) r c r1 hocc hlt (by rw [f3, hr0]; exact hr1)

theorem gravity_invariant_witness :
    NewGame 2 2 "ServerVsComputer" = some tiny ∧
      ∃ g k,
        runCalls tiny 0
          [Call.makeMove 0, Call.switchPlayer, Call.makeMove 0, Call.makeMove 1] =
            some (g, k) ∧
          ∀ r c r1 : Int, Occupied g r c → r < r1 → r1 < 2 → Occupied g r1 c :=
  ⟨by decide,
    ((gravity_invariant 2 2 "ServerVsComputer").2.2 tiny (by decide)).2
      [Call.makeMove 0, Call.switchPlayer, Call.makeMove 0, Call.makeMove 1]
      (fun col h => by
        simp only [List.mem_cons, Call.makeMove.injEq, List.mem_singleton, List.mem_nil_iff,
          or_false, false_or, reduceCtorEq] at h
        omega)⟩

/-- C5. `IsDraw` returns `true` if and only if no cell of the top row (row index 0) is empty,
that is, every position `(0, c)` with `0 <= c < columns` holds a piece; on a rectangular board
with at least one row `IsDraw` always returns a boolean, and if the board also satisfies the
gravity invariant then `IsDraw` returns `true` if and only if no cell of the whole board is
empty (every column is full). -/
theorem IsDraw_iff_top_row_full (g : Game) :
    (IsDraw g = some true ↔ ∀ c : Int, 0 ≤ c → c < g.columns → Occupied g 0 c) ∧
      (Rect g → 0 < g.rows →
        (∃ b, IsDraw g = some b) ∧
          (Gravity g →
            (IsDraw g = some true ↔
              ∀ r c : Int, 0 ≤ r → r < g.rows → 0 ≤ c → c < g.columns → Occupied g r c))) := by
  refine ⟨IsDraw_eq_true_iff g, fun hg hr => ⟨?_, fun hgr => ?_⟩⟩
  · obtain ⟨b, hb, _⟩ := IsDraw_returns hg hr
    exact ⟨b, hb⟩
  · rw [IsDraw_eq_true_iff, top_full_iff hr hgr]


theorem IsDraw_iff_top_row_full_witness :
    Rect drawn44 ∧ 0 < drawn44.rows ∧ Gravity drawn44 ∧ IsDraw drawn44 = some true ∧
      (IsDraw drawn44 = some true ↔
        ∀ r c : Int, 0 ≤ r → r < drawn44.rows → 0 ≤ c → c < drawn44.columns →
          Occupied drawn44 r c) :=
  ⟨by decide, by decide, gravity_of_check (by decide) (by decide), by decide,
    ((IsDraw_iff_top_row_full drawn44).2 (by decide) (by decide)).2
      (gravity_of_check (by decide) (by decide))⟩

/-! ## The turn loops -/

theorem inform_of_source {g : Game} {env : Env} {s : Option (Int × Bool)}
    (hp : g.player = 1 ∨ g.player = 2) (h : Play.source g env = some s) :
    informInvalidInput g = some () := by
  unfold Play.source at h
  unfold informInvalidInput
  by_cases m1 : g.mode = "ServerVsClient"
  · simp only [m1, if_true] at h ⊢
    by_cases p1 : g.player = 1
    · simp [p1]
    · simp only [p1, if_false] at h ⊢
      cases hw : writeTo g 0 with
      | none => simp [hw] at h
      | some u => rfl
  · simp only [m1, if_false] at h ⊢
    by_cases m2 : g.mode = "ClientVsClient"
    · simp only [m2, if_true] at h ⊢
      by_cases p1 : g.player = 1
      · simp only [p1, if_true] at h ⊢
        cases hw : writeTo g 0 with
        | none => simp [hw] at h
        | some u =>
          have : (1 : Int) - 1 = 0 := by omega
          rw [this, hw]
      · have p2 : g.player = 2 := by omega
        simp only [p1, if_false] at h
        rw [p2]
        cases hw : writeTo g 1 with
        | none => simp [hw] at h
        | some u =>
          have : (2 : Int) - 1 = 1 := by omega
          rw [this, hw]
    · simp only [m2, if_false] at h ⊢
      by_cases m3 : g.mode = "ClientVsComputer"
      · simp only [m3, if_true] at h ⊢
        by_cases p1 : g.player = 1
        · simp only [p1, if_true] at h ⊢
          cases hw : writeTo g 0 with
          | none => simp [hw] at h
          | some u => rfl
        · simp [p1]
      · simp [m3]

theorem runLoop_again {iter : Game → Env → Option (Game × Step)} {g : Game} {env : Env}
    (h : iter g env = some (g, Step.again)) (n : Nat) (rest : List Env) :
    runLoop iter g n (env :: rest) = runLoop iter g n rest := by
  simp [runLoop, h]

theorem getClientInput_malformed {g : Game} {idx : Int} {env : Env} (h0 : 0 ≤ idx)
    (h1 : idx < g.connections) (hread : env.input.failed = false)
    (hbad : TrimSpace env.input.text.data = [] ∨
      Atoi (TrimSpace env.input.text.data) = none) :
    getClientInput g idx env = some (0, true) := by
  unfold getClientInput
  rw [if_neg (by omega)]
  simp only [hread, Bool.false_eq_true, if_false]
  by_cases he : TrimSpace env.input.text.data = []
  · rw [if_pos he]
  · rw [if_neg he]
    rcases hbad with hb | hb
    · exact absurd hb he
    · rw [hb]

theorem writeTo_ok {g : Game} {i : Int} (h0 : 0 ≤ i) (h1 : i < g.connections) :
    writeTo g i = some () := by
  unfold writeTo
  rw [if_neg (by omega)]

/-- In every mode and state in which the acting player's move source is a client and the
connections of the mode exist, a line that was read without error but is empty or not a
decimal integer makes the iteration of `Play` execute `return`. -/
theorem client_parse_error_ends_game (g : Game) (env : Env)
    (hsrc : (g.mode = "ServerVsClient" ∧ g.player ≠ 1 ∧ 1 ≤ g.connections) ∨
      (g.mode = "ClientVsClient" ∧ 2 ≤ g.connections) ∨
      (g.mode = "ClientVsComputer" ∧ g.player = 1 ∧ 1 ≤ g.connections))
    (hread : env.input.failed = false)
    (hbad : TrimSpace env.input.text.data = [] ∨
      Atoi (TrimSpace env.input.text.data) = none) :
    Play.iter g env = some (g, Step.quit) := by
  have hsource : Play.source g env = some none := by
    unfold Play.source
    rcases hsrc with ⟨hm, hp, hc⟩ | ⟨hm, hc⟩ | ⟨hm, hp, hc⟩
    · rw [if_pos hm, if_neg hp, writeTo_ok (by omega) (by omega),
        getClientInput_malformed (by omega) (by omega) hread hbad]
      rfl
    · have hm1 : g.mode ≠ "ServerVsClient" := by rw [hm]; decide
      rw [if_neg hm1, if_pos hm]
      by_cases hp : g.player = 1
      · rw [if_pos hp, writeTo_ok (by omega) (by omega), writeTo_ok (by omega) (by omega),
          getClientInput_malformed (by omega) (by omega) hread hbad]
        rfl
      · rw [if_neg hp, writeTo_ok (by omega) (by omega), writeTo_ok (by omega) (by omega),
          getClientInput_malformed (by omega) (by omega) hread hbad]
        rfl
    · have hm1 : g.mode ≠ "ServerVsClient" := by rw [hm]; decide
      have hm2 : g.mode ≠ "ClientVsClient" := by rw [hm]; decide
      rw [if_neg hm1, if_neg hm2, if_pos hm, if_pos hp, writeTo_ok (by omega) (by omega),
        getClientInput_malformed (by omega) (by omega) hread hbad]
      rfl
  unfold Play.iter
  rw [hsource]
  rfl

theorem startTCPServer_game {g g1 : Game} (h : startTCPServer g = some g1) :
    g1 = { g with connections := g1.connections } := by
  unfold startTCPServer at h
  obtain ⟨_, _, h⟩ := Option.map_eq_some'.mp h
  rw [← h]

/-- C6 on the code: in a game between two clients, a line from the acting client that is not a
decimal integer (`abc`) or is empty makes the iteration of `Play` execute `return`: the board
and the current player are unchanged, but the loop is left and the line that follows is never
read. -/
theorem Play_returns_on_malformed_client_line :
    Play.iter demo (typed "abc\n") = some (demo, Step.quit) ∧
      Play.iter demo (typed "\n") = some (demo, Step.quit) ∧
      Play demo [typed "abc\n", typed "4\n"] = some ⟨demo, 0, true⟩ := by
  decide

/-- C7. For every game state with current player 1 or 2 and every column value `col` with
`col < 1` or `col > columns` delivered by the input part of an iteration, the iteration of
`Play` and of `PlayLocal` ends in `continue` with the game unchanged (every board cell and the
current player; `MakeMove` is not evaluated), so the loop goes on from the same state with
the same player to move. -/
theorem out_of_range_column_rejected (g : Game) (env : Env) (col : Int)
    (hp : g.player = 1 ∨ g.player = 2) (hcol : col < 1 ∨ col > g.columns) :
    (Play.source g env = some (some (col, false)) →
        Play.iter g env = some (g, Step.again) ∧
          ∀ rest, Play g (env :: rest) = Play g rest) ∧
      (PlayLocal.source g env = some (some col) →
        PlayLocal.iter g env = some (g, Step.again) ∧
          ∀ rest, PlayLocal g (env :: rest) = PlayLocal g rest) := by
  constructor
  · intro hs
    have hi : Play.iter g env = some (g, Step.again) := by
      unfold Play.iter
      rw [hs]
      simp only [Option.some_bind]
      unfold Play.check
      rw [if_pos rfl, if_pos hcol, inform_of_source hp hs]
      rfl
    exact ⟨hi, fun rest => runLoop_again hi 0 rest⟩
  · intro hs
    have hi : PlayLocal.iter g env = some (g, Step.again) := by
      unfold PlayLocal.iter
      rw [hs]
      simp only [Option.some_bind]
      rw [if_pos hcol]
    refine ⟨hi, fun rest => ?_⟩
    unfold PlayLocal
    rw [runLoop_again hi 0 rest]

theorem out_of_range_column_rejected_witness :
    Play.source demo (typed "0\n") = some (some (0, false)) ∧
      Play.iter demo (typed "0\n") = some (demo, Step.again) ∧
      Play.source demo (typed "8\n") = some (some (8, false)) ∧
      Play.iter demo (typed "8\n") = some (demo, Step.again) ∧
      PlayLocal.source tiny (typed "3\n") = some (some 3) ∧
      PlayLocal.iter tiny (typed "3\n") = some (tiny, Step.again) :=
  ⟨by decide,
    ((out_of_range_column_rejected demo (typed "0\n") 0 (by decide) (by decide)).1
      (by decide)).1,
    by decide,
    ((out_of_range_column_rejected demo (typed "8\n") 8 (by decide) (by decide)).1
      (by decide)).1,
    by decide,
    ((out_of_range_column_rejected tiny (typed "3\n") 3 (by decide) (by decide)).2
      (by decide)).1⟩

/-! ## The turn loops do not panic -/

theorem build_total {body : Int → Option String} (l : List Int)
    (h : ∀ i ∈ l, ∃ t, body i = some t) : ∃ t, build body l = some t := by
  induction l with
  | nil => exact ⟨"", rfl⟩
  | cons a l ih =>
    obtain ⟨t, ht⟩ := h a (List.mem_cons_self a l)
    obtain ⟨u, hu⟩ := ih (fun i hi => h i (List.mem_cons_of_mem a hi))
    exact ⟨t ++ u, by simp [build, ht, hu]⟩

theorem getBoardString_total {g : Game} (hg : Rect g) : ∃ t, getBoardString g = some t := by
  unfold getBoardString
  have hrows : ∃ t, build (fun i =>
      (build (fun j => (cell g i j).map (fun v => marker v ++ " ")) (upTo 0 g.columns)).map
        (fun s => s ++ "\n")) (upTo 0 g.rows) = some t := by
    refine build_total _ (fun i hi => ?_)
    have hcells : ∃ t, build (fun j => (cell g i j).map (fun v => marker v ++ " "))
        (upTo 0 g.columns) = some t := by
      refine build_total _ (fun j hj => ?_)
      obtain ⟨v, hv⟩ := cell_of_bounds hg (mem_upTo.mp hi).1 (mem_upTo.mp hi).2
        (mem_upTo.mp hj).1 (mem_upTo.mp hj).2
      exact ⟨marker v ++ " ", by simp [hv]⟩
    obtain ⟨t, ht⟩ := hcells
    exact ⟨t ++ "\n", by simp [ht]⟩
  obtain ⟨t, ht⟩ := hrows
  rw [ht]
  exact ⟨_, rfl⟩

theorem PrintBoard_ok {g : Game} (hg : Rect g) : PrintBoard g = some () := by
  obtain ⟨t, ht⟩ := getBoardString_total hg
  simp [PrintBoard, ht]

theorem broadcastBoard_ok {g : Game} (hg : Rect g) : broadcastBoard g = some () := by
  obtain ⟨t, ht⟩ := getBoardString_total hg
  simp [broadcastBoard, ht]

theorem inform_ok {g : Game} (hp : g.player = 1 ∨ g.player = 2) (hready : Ready g) :
    informInvalidInput g = some () ∧ informColumnFull g = some () := by
  obtain ⟨r1, r2, r3⟩ := hready
  unfold informInvalidInput informColumnFull
  by_cases m1 : g.mode = "ServerVsClient"
  · have := r1 m1
    by_cases p1 : g.player = 1
    · simp [m1, p1]
    · simp [m1, p1, writeTo_ok (g := g) (i := 0) (by omega) (by omega)]
  · by_cases m2 : g.mode = "ClientVsClient"
    · have := r2 m2
      simp [m1, m2, writeTo_ok (g := g) (i := g.player - 1) (by omega) (by omega)]
    · by_cases m3 : g.mode = "ClientVsComputer"
      · have := r3 m3
        by_cases p1 : g.player = 1
        · simp [m1, m2, m3, p1, writeTo_ok (g := g) (i := 0) (by omega) (by omega)]
        · simp [m1, m2, m3, p1]
      · simp [m1, m2, m3]

theorem getClientInput_total (g : Game) (idx : Int) (env : Env) (h0 : 0 ≤ idx)
    (h1 : idx < g.connections) : ∃ r, getClientInput g idx env = some r := by
  unfold getClientInput
  rw [if_neg (by omega)]
  split
  · exact ⟨_, rfl⟩
  · split
    · exact ⟨_, rfl⟩
    · split <;> exact ⟨_, rfl⟩

theorem Play_source_total {g : Game} (env : Env) (hg : Rect g) (hcols : 0 < g.columns)
    (hready : Ready g) : ∃ r, Play.source g env = some r := by
  obtain ⟨r1, r2, r3⟩ := hready
  unfold Play.source
  by_cases m1 : g.mode = "ServerVsClient"
  · have := r1 m1
    rw [if_pos m1]
    by_cases p1 : g.player = 1
    · rw [if_pos p1, PrintBoard_ok hg, writeTo_ok (by omega) (by omega)]
      simp only [Option.some_bind]
      split <;> exact ⟨_, rfl⟩
    · obtain ⟨r, hr⟩ := getClientInput_total g 0 env (by omega) (by omega)
      rw [if_neg p1, writeTo_ok (by omega) (by omega), hr]
      simp only [Option.some_bind]
      split <;> exact ⟨_, rfl⟩
  · rw [if_neg m1]
    by_cases m2 : g.mode = "ClientVsClient"
    · have := r2 m2
      rw [if_pos m2]
      by_cases p1 : g.player = 1
      · obtain ⟨r, hr⟩ := getClientInput_total g 0 env (by omega) (by omega)
        rw [if_pos p1, writeTo_ok (by omega) (by omega), writeTo_ok (by omega) (by omega), hr]
        simp only [Option.some_bind]
        split <;> exact ⟨_, rfl⟩
      · obtain ⟨r, hr⟩ := getClientInput_total g 1 env (by omega) (by omega)
        rw [if_neg p1, writeTo_ok (by omega) (by omega), writeTo_ok (by omega) (by omega), hr]
        simp only [Option.some_bind]
        split <;> exact ⟨_, rfl⟩
    · rw [if_neg m2]
      by_cases m3 : g.mode = "ClientVsComputer"
      · have := r3 m3
        rw [if_pos m3]
        by_cases p1 : g.player = 1
        · obtain ⟨r, hr⟩ := getClientInput_total g 0 env (by omega) (by omega)
          rw [if_pos p1, writeTo_ok (by omega) (by omega), hr]
          simp only [Option.some_bind]
          split <;> exact ⟨_, rfl⟩
        · rw [if_neg p1]
          unfold Intn
          rw [if_neg (by omega)]
          exact ⟨_, rfl⟩
      · rw [if_neg m3]
        exact ⟨_, rfl⟩

theorem afterMove_total {g : Game} (hg : Rect g) (hr : 0 < g.rows) :
    ∃ r, afterMove g = some r := by
  obtain ⟨w, hw, _⟩ := CheckWin_returns hg
  obtain ⟨d, hd, _⟩ := IsDraw_returns hg hr
  unfold afterMove
  rw [hw, hd]
  simp only [Option.some_bind]
  split
  · exact ⟨_, rfl⟩
  · split <;> exact ⟨_, rfl⟩

theorem placed_total {g : Game} (hg : Rect g) (hp : g.player = 1 ∨ g.player = 2)
    {col : Int} (h0 : 0 ≤ col) (h1 : col < g.columns) {gm : Game}
    (hm : MakeMove g col = some (gm, true)) :
    broadcastBoard gm = some () ∧ PrintBoard gm = some () ∧ ∃ r, afterMove gm = some r := by
  obtain ⟨e1, _, e3, _⟩ := MakeMove_effect hg hp h0 h1 hm
  obtain ⟨r, hr0, hr1, _⟩ := MakeMove_true hg h0 h1 hm
  exact ⟨broadcastBoard_ok e1, PrintBoard_ok e1, afterMove_total e1 (by rw [e3]; omega)⟩

theorem Play_iter_total {g : Game} (env : Env) (hg : Rect g)
    (hp : g.player = 1 ∨ g.player = 2) (hcols : 0 < g.columns) (hready : Ready g) :
    ∃ r, Play.iter g env = some r := by
  obtain ⟨s, hs⟩ := Play_source_total env hg hcols hready
  obtain ⟨i1, i2⟩ := inform_ok hp hready
  unfold Play.iter
  rw [hs]
  simp only [Option.some_bind]
  cases s with
  | none => exact ⟨_, rfl⟩
  | some r =>
    simp only
    unfold Play.check
    by_cases herr : r.2 = false
    · rw [if_pos herr]
      by_cases hrange : r.1 < 1 ∨ r.1 > g.columns
      · rw [if_pos hrange, i1]
        exact ⟨_, rfl⟩
      · rw [if_neg hrange]
        obtain ⟨gm, ok, hm⟩ := @MakeMove_total g hg (r.1 - 1) (by omega) (by omega)
        rw [hm]
        simp only [Option.some_bind]
        cases ok with
        | false =>
          have := scan_false _ hm
          subst this
          simp only [if_true, i2]
          exact ⟨_, rfl⟩
        | true =>
          obtain ⟨b1, b2, ra, hra⟩ := placed_total hg hp (by omega) (by omega) hm
          simp only [Bool.true_eq_false, if_false, b1, b2, Option.some_bind, hra]
          exact ⟨_, rfl⟩
    · rw [if_neg herr, i1]
      exact ⟨_, rfl⟩

theorem PlayLocal_iter_total {g : Game} (env : Env) (hg : Rect g)
    (hp : g.player = 1 ∨ g.player = 2) (hcols : 0 < g.columns) :
    ∃ r, PlayLocal.iter g env = some r := by
  have hsrc : ∃ s, PlayLocal.source g env = some s := by
    unfold PlayLocal.source
    by_cases p1 : g.player = 1
    · rw [if_pos p1]
      simp only
      split <;> exact ⟨_, rfl⟩
    · rw [if_neg p1]
      unfold Intn
      rw [if_neg (by omega)]
      exact ⟨_, rfl⟩
  obtain ⟨s, hs⟩ := hsrc
  unfold PlayLocal.iter
  rw [hs]
  simp only [Option.some_bind]
  cases s with
  | none => exact ⟨_, rfl⟩
  | some col =>
    simp only
    by_cases hrange : col < 1 ∨ col > g.columns
    · rw [if_pos hrange]
      exact ⟨_, rfl⟩
    · rw [if_neg hrange]
      obtain ⟨gm, ok, hm⟩ := @MakeMove_total g hg (col - 1) (by omega) (by omega)
      rw [hm]
      simp only [Option.some_bind]
      cases ok with
      | false =>
        simp only [if_true]
        exact ⟨_, rfl⟩
      | true =>
        obtain ⟨_, b2, ra, hra⟩ := placed_total hg hp (by omega) (by omega) hm
        simp only [Bool.true_eq_false, if_false, b2, Option.some_bind, hra]
        exact ⟨_, rfl⟩

/-- The fields that an iteration of the shape shared by both turn loops leaves alone. -/
theorem iter_keeps {g g1 : Game} {st : Step}
    (h : (g1 = g ∧ (st = Step.again ∨ st = Step.quit)) ∨
      ∃ c gm, 0 ≤ c ∧ c < g.columns ∧ MakeMove g c = some (gm, true) ∧
        afterMove gm = some (g1, st))
    (hg : Rect g) (hp : g.player = 1 ∨ g.player = 2) :
    Rect g1 ∧ (g1.player = 1 ∨ g1.player = 2) ∧ g1.columns = g.columns ∧
      g1.mode = g.mode ∧ g1.connections = g.connections := by
  rcases iter_norm h with ⟨rfl, _⟩ | ⟨c, gm, h0, h1, hm, hcase⟩
  · exact ⟨hg, hp, rfl, rfl, rfl⟩
  · obtain ⟨e1, e2, _, e4, _⟩ := MakeMove_effect hg hp h0 h1 hm
    obtain ⟨_, _, _, f4, f5⟩ := scan_fields _ hm
    rcases hcase with ⟨_, rfl, _⟩ | ⟨_, rfl, _⟩ | ⟨_, rfl, _⟩
    · exact ⟨e1, by rw [e2]; exact hp, e4, f4, f5⟩
    · exact ⟨e1, by rw [e2]; exact hp, e4, f4, f5⟩
    · obtain ⟨s1, s2, s3, s4, s5, s6⟩ := SwitchPlayer_fields gm
      obtain ⟨c1, _⟩ := board_props_congr s1 s2 s3
      exact ⟨c1.mpr e1, by rw [s6]; split <;> simp, by rw [s3, e4], by rw [s4, f4],
        by rw [s5, f5]⟩

theorem runLoop_total (iter : Game → Env → Option (Game × Step)) (I : Game → Prop)
    (htotal : ∀ g env, I g → ∃ r, iter g env = some r)
    (hkeep : ∀ g env g1 st, I g → iter g env = some (g1, st) → I g1) :
    ∀ (envs : List Env) (g : Game) (n : Nat), I g → ∃ run, runLoop iter g n envs = some run := by
  intro envs
  induction envs with
  | nil => exact fun g n _ => ⟨_, rfl⟩
  | cons env rest ih =>
    intro g n hI
    obtain ⟨⟨g1, st⟩, hr⟩ := htotal g env hI
    have hI1 := hkeep g env g1 st hI hr
    cases st with
    | again =>
      obtain ⟨run, hrun⟩ := ih g1 n hI1
      exact ⟨run, by simp [runLoop, hr, hrun]⟩
    | moved =>
      obtain ⟨run, hrun⟩ := ih g1 (n + 1) hI1
      exact ⟨run, by simp [runLoop, hr, hrun]⟩
    | won => exact ⟨⟨g1, n, true⟩, by simp [runLoop, hr]⟩
    | drawn => exact ⟨⟨g1, n, true⟩, by simp [runLoop, hr]⟩
    | quit => exact ⟨⟨g1, n, true⟩, by simp [runLoop, hr]⟩

/-- On a rectangular board with at least one column, current player 1 or 2 and the
connections of the mode in place, `Play` runs without a panic on every sequence of inputs. -/
theorem Play_total {g : Game} (hg : Rect g) (hp : g.player = 1 ∨ g.player = 2)
    (hcols : 0 < g.columns) (hready : Ready g) (envs : List Env) :
    ∃ run, Play g envs = some run := by
  refine runLoop_total Play.iter
    (fun g1 => Rect g1 ∧ (g1.player = 1 ∨ g1.player = 2) ∧ 0 < g1.columns ∧ Ready g1)
    (fun g1 env hI => Play_iter_total env hI.1 hI.2.1 hI.2.2.1 hI.2.2.2)
    (fun g1 env g2 st hI hi => ?_) envs g 0 ⟨hg, hp, hcols, hready⟩
  obtain ⟨k1, k2, k3, k4, k5⟩ := iter_keeps (Play_iter_cases hi) hI.1 hI.2.1
  refine ⟨k1, k2, by rw [k3]; exact hI.2.2.1, ?_⟩
  unfold Ready
  rw [k4, k5]
  exact hI.2.2.2

/-- On a rectangular board with at least one column and current player 1 or 2, `PlayLocal`
runs without a panic on every sequence of inputs. -/
theorem PlayLocal_total {g : Game} (hg : Rect g) (hp : g.player = 1 ∨ g.player = 2)
    (hcols : 0 < g.columns) (envs : List Env) : ∃ run, PlayLocal g envs = some run := by
  unfold PlayLocal
  rw [PrintBoard_ok hg]
  simp only [Option.some_bind]
  refine runLoop_total PlayLocal.iter
    (fun g1 => Rect g1 ∧ (g1.player = 1 ∨ g1.player = 2) ∧ 0 < g1.columns)
    (fun g1 env hI => PlayLocal_iter_total env hI.1 hI.2.1 hI.2.2)
    (fun g1 env g2 st hI hi => ?_) envs g 0 ⟨hg, hp, hcols⟩
  obtain ⟨k1, k2, k3, _⟩ := iter_keeps (PlayLocal_iter_cases hi) hI.1 hI.2.1
  exact ⟨k1, k2, by rw [k3]; exact hI.2.2⟩

theorem startTCPServer_ready {g : Game} (hg : Rect g) :
    ∃ g1, startTCPServer g = some g1 ∧ Ready g1 ∧ Rect g1 ∧ g1.player = g.player ∧
      g1.columns = g.columns ∧ g1 = { g with connections := g1.connections } := by
  have hb : ∀ k, broadcastBoard { g with connections := k } = some () :=
    fun k => broadcastBoard_ok (show Rect { g with connections := k } from hg)
  unfold startTCPServer
  simp only [hb, Option.map_some']
  refine ⟨_, rfl, ?_, hg, rfl, rfl, rfl⟩
  unfold Ready
  refine ⟨fun h => ?_, fun h => ?_, fun h => ?_⟩
  · have h0 : g.mode = "ServerVsClient" := h
    simp [h0]
  · have h0 : g.mode = "ClientVsClient" := h
    have h1 : g.mode ≠ "ServerVsClient" := by rw [h0]; decide
    have h2 : g.mode ≠ "ClientVsComputer" := by rw [h0]; decide
    simp [h0, h1, h2]
  · have h0 : g.mode = "ClientVsComputer" := h
    simp [h0]

theorem loops_run {rows columns : Int} {mode : String} {g0 : Game}
    (hnew : NewGame rows columns mode = some g0) (hcols : 0 < columns) : LoopsRun g0 := by
  obtain ⟨hg0, hp0, _, hc0, _⟩ := NewGame_props hnew
  obtain ⟨g1, h1, hready, hg1, hp1, hc1, heq⟩ := startTCPServer_ready hg0
  refine ⟨⟨g1, h1, heq, fun envs => ?_⟩, fun envs => ?_⟩
  · exact Play_total hg1 (by rw [hp1, hp0]; exact Or.inl rfl) (by rw [hc1, hc0]; exact hcols)
      hready envs
  · exact PlayLocal_total hg0 (Or.inl hp0) (by rw [hc0]; exact hcols) envs

/-- C8. Turn alternation.  `NewGame` returns a game for non-negative dimensions; every game
it returns starts with current player 1, the turn loops run from it on every input when there
is at least one column, and in every state reached by `Play` (with any number of connections)
or `PlayLocal` from it, the current player is 1 if the number of moves so far that were placed
and ended in neither a win nor a draw is even, and 2 if it is odd; rejected moves are not
counted and do not switch the player. -/
theorem turn_alternation (rows columns : Int) (mode : String) :
    (0 ≤ rows → 0 ≤ columns → ∃ g0, NewGame rows columns mode = some g0) ∧
      ∀ g0, NewGame rows columns mode = some g0 →
        g0.player = 1 ∧ (0 < columns → LoopsRun g0) ∧
          ∀ (conns : Nat) (envs : List Env) (run : Run),
            (Play { g0 with connections := conns } envs = some run ∨
              PlayLocal g0 envs = some run) →
            run.game.player = if run.moves % 2 = 0 then 1 else 2 := by
  refine ⟨NewGame_eq mode, fun g0 hnew => ?_⟩
  have hp0 := (NewGame_props hnew).2.1
  refine ⟨hp0, loops_run hnew, ?_⟩
  rintro conns envs run (h | h)
  · exact runLoop_parity Play.iter (fun _ _ _ _ hi => Play_iter_cases hi) envs
      { g0 with connections := conns } run hp0 h
  · unfold PlayLocal at h
    obtain ⟨_, _, h⟩ := Option.bind_eq_some.mp h
    exact runLoop_parity PlayLocal.iter (fun _ _ _ _ hi => PlayLocal_iter_cases hi) envs _ run
      hp0 h

theorem turn_alternation_witness :
    NewGame 2 2 "ServerVsComputer" = some tiny ∧
      PlayLocal tiny [typed "1\n", ⟨⟨"", false⟩, 1⟩, typed "9\n", typed "1\n"] =
        some ⟨tinyThree, 3, false⟩ ∧
      tinyThree.player = if 3 % 2 = 0 then 1 else 2 :=
  ⟨by decide, by decide,
    ((turn_alternation 2 2 "ServerVsComputer").2 tiny (by decide)).2.2 0
      [typed "1\n", ⟨⟨"", false⟩, 1⟩, typed "9\n", typed "1\n"] ⟨tinyThree, 3, false⟩
      (Or.inr (by decide))⟩

/-! ## Wins and the length of a game -/

theorem CheckWin_as {g : Game} (hg : Rect g) (p : Int) :
    Returns (CheckWin { g with player := p }) (HasFour g p) :=
  CheckWin_returns (g := { g with player := p }) hg

theorem move_keeps_noFour {g gm : Game} (hg : Rect g) {col : Int} (h0 : 0 ≤ col)
    (h1 : col < g.columns) (hm : MakeMove g col = some (gm, true)) {q : Int}
    (hq : q ≠ g.player) (hn : ¬ HasFour g q) : ¬ HasFour gm q := by
  obtain ⟨r, hr0, _, hr, _, rfl⟩ := MakeMove_true hg h0 h1 hm
  exact fun hf => hn (hasFour_setCell hq hr hr0 h0 hf)

theorem iter_noFour {g g1 : Game} {st : Step}
    (h : (g1 = g ∧ (st = Step.again ∨ st = Step.quit)) ∨
      ∃ c gm, 0 ≤ c ∧ c < g.columns ∧ MakeMove g c = some (gm, true) ∧
        afterMove gm = some (g1, st))
    (hst : st = Step.again ∨ st = Step.moved)
    (hQ : Rect g ∧ (g.player = 1 ∨ g.player = 2) ∧ ¬ HasFour g 1 ∧ ¬ HasFour g 2) :
    Rect g1 ∧ (g1.player = 1 ∨ g1.player = 2) ∧ ¬ HasFour g1 1 ∧ ¬ HasFour g1 2 := by
  obtain ⟨hg, hp, n1, n2⟩ := hQ
  rcases iter_norm h with ⟨rfl, _⟩ | ⟨c, gm, h0, h1, hm, hcase⟩
  · exact ⟨hg, hp, n1, n2⟩
  · obtain ⟨e1, e2, _⟩ := MakeMove_effect hg hp h0 h1 hm
    rcases hcase with ⟨rfl, _⟩ | ⟨rfl, _⟩ | ⟨_, rfl, hwin, _⟩
    · rcases hst with hst | hst <;> exact Step.noConfusion hst
    · rcases hst with hst | hst <;> exact Step.noConfusion hst
    · have hmover : ¬ HasFour gm gm.player := (CheckWin_returns e1).of_eq_false hwin
      rw [e2] at hmover
      have m1 : ¬ HasFour gm 1 := by
        by_cases hp1 : g.player = 1
        · rw [hp1] at hmover
          exact hmover
        · exact move_keeps_noFour hg h0 h1 hm (fun he => hp1 he.symm) n1
      have m2 : ¬ HasFour gm 2 := by
        by_cases hp2 : g.player = 2
        · rw [hp2] at hmover
          exact hmover
        · exact move_keeps_noFour hg h0 h1 hm (fun he => hp2 he.symm) n2
      obtain ⟨s1, s2, s3, _, _, s6⟩ := SwitchPlayer_fields gm
      obtain ⟨c1, _, _, c4, _⟩ := board_props_congr s1 s2 s3
      refine ⟨c1.mpr e1, by rw [s6]; split <;> simp, ?_, ?_⟩
      · rw [c4]
        exact m1
      · rw [c4]
        exact m2

theorem runLoop_noFour (iter : Game → Env → Option (Game × Step))
    (hiter : ∀ g env g1 st, iter g env = some (g1, st) →
      (g1 = g ∧ (st = Step.again ∨ st = Step.quit)) ∨
        ∃ c gm, 0 ≤ c ∧ c < g.columns ∧ MakeMove g c = some (gm, true) ∧
          afterMove gm = some (g1, st))
    (envs : List Env) (g : Game) (run : Run)
    (hQ : Rect g ∧ (g.player = 1 ∨ g.player = 2) ∧ ¬ HasFour g 1 ∧ ¬ HasFour g 2)
    (h : runLoop iter g 0 envs = some run) (hrun : run.finished = false) :
    Rect run.game ∧ ¬ HasFour run.game 1 ∧ ¬ HasFour run.game 2 := by
  have key := runLoop_induct iter
    (fun g _ => Rect g ∧ (g.player = 1 ∨ g.player = 2) ∧ ¬ HasFour g 1 ∧ ¬ HasFour g 2)
    (fun _ _ => True)
    (fun g n env g1 hq hi => iter_noFour (hiter g env g1 _ hi) (Or.inl rfl) hq)
    (fun g n env g1 hq hi => iter_noFour (hiter g env g1 _ hi) (Or.inr rfl) hq)
    (fun _ _ _ _ _ _ _ _ _ => trivial)
    envs g 0 run hQ h
  obtain ⟨k1, _, k3, k4⟩ := key.1 hrun
  exact ⟨k1, k3, k4⟩

theorem noFour_of_empty {g : Game} (h : ∀ r c v, cell g r c = some v → v = 0) (p : Int)
    (hp : p ≠ 0) : ¬ HasFour g p := by
  rintro ⟨r, c, dr, dc, _, hline⟩
  have := (hline 0 (by omega) (by omega)).2.2.2.2
  exact hp (h _ _ _ this)

/-- C9. A win can only be created by the most recent placement.  On a rectangular board on
which neither player has four in a row, after a successful `MakeMove` in an in-range column
by the current player `p` (1 or 2), `CheckWin` evaluated with the opponent of `p` as current
player returns `false`, so if `CheckWin` for `p` returns `false` too, nobody has four in a
row.  Hence from a new game, from which the turn loops run on every input when there is at
least one column, in every state that `Play` or `PlayLocal` reaches before the loop is left,
`CheckWin` returns `false` for both players. -/
theorem win_only_by_last_placement (rows columns : Int) (mode : String) :
    (∀ (g gm : Game) (col : Int), Rect g → (g.player = 1 ∨ g.player = 2) →
        0 ≤ col → col < g.columns →
        CheckWin { g with player := 1 } = some false →
        CheckWin { g with player := 2 } = some false →
        MakeMove g col = some (gm, true) →
        CheckWin { gm with player := 3 - g.player } = some false ∧
          (CheckWin gm = some false →
            CheckWin { gm with player := 1 } = some false ∧
              CheckWin { gm with player := 2 } = some false)) ∧
      ∀ g0, NewGame rows columns mode = some g0 →
        (0 < columns → LoopsRun g0) ∧
          ∀ (conns : Nat) (envs : List Env) (run : Run),
            (Play { g0 with connections := conns } envs = some run ∨
              PlayLocal g0 envs = some run) →
            run.finished = false →
            CheckWin { run.game with player := 1 } = some false ∧
              CheckWin { run.game with player := 2 } = some false := by
  constructor
  · intro g gm col hg hp h0 h1 hw1 hw2 hm
    have n1 : ¬ HasFour g 1 := (CheckWin_as hg 1).of_eq_false hw1
    have n2 : ¬ HasFour g 2 := (CheckWin_as hg 2).of_eq_false hw2
    obtain ⟨e1, e2, _⟩ := MakeMove_effect hg hp h0 h1 hm
    have hopp : CheckWin { gm with player := 3 - g.player } = some false := by
      refine (CheckWin_as e1 _).eq_false ?_
      rcases hp with hp | hp
      · rw [hp]
        exact move_keeps_noFour hg h0 h1 hm (by rw [hp]; decide) n2
      · rw [hp]
        exact move_keeps_noFour hg h0 h1 hm (by rw [hp]; decide) n1
    refine ⟨hopp, fun hself => ?_⟩
    rcases hp with hp | hp
    · rw [hp] at hopp
      have hs : CheckWin { gm with player := 1 } = some false := by
        have : ({ gm with player := 1 } : Game) = gm := by rw [← hp, ← e2]
        rw [this]
        exact hself
      exact ⟨hs, hopp⟩
    · rw [hp] at hopp
      have hs : CheckWin { gm with player := 2 } = some false := by
        have : ({ gm with player := 2 } : Game) = gm := by rw [← hp, ← e2]
        rw [this]
        exact hself
      exact ⟨hopp, hs⟩
  · intro g0 hnew
    refine ⟨loops_run hnew, ?_⟩
    obtain ⟨hg0, hp0, _, _, _, _, hempty, _⟩ := NewGame_props hnew
    have hQ : Rect g0 ∧ (g0.player = 1 ∨ g0.player = 2) ∧ ¬ HasFour g0 1 ∧ ¬ HasFour g0 2 :=
      ⟨hg0, Or.inl hp0, noFour_of_empty hempty 1 (by decide),
        noFour_of_empty hempty 2 (by decide)⟩
    rintro conns envs run (h | h) hrun
    · obtain ⟨c1, _, _, c4, _⟩ :=
        @board_props_congr g0 { g0 with connections := conns } rfl rfl rfl
      have hQ1 : Rect { g0 with connections := conns } ∧
          (({ g0 with connections := conns } : Game).player = 1 ∨
            ({ g0 with connections := conns } : Game).player = 2) ∧
          ¬ HasFour { g0 with connections := conns } 1 ∧
          ¬ HasFour { g0 with connections := conns } 2 :=
        ⟨c1.mpr hQ.1, hQ.2.1, fun hf => hQ.2.2.1 ((c4 1).mp hf),
          fun hf => hQ.2.2.2 ((c4 2).mp hf)⟩
      obtain ⟨k1, k3, k4⟩ := runLoop_noFour Play.iter (fun _ _ _ _ hi => Play_iter_cases hi)
        envs _ run hQ1 h hrun
      exact ⟨(CheckWin_as k1 1).eq_false k3, (CheckWin_as k1 2).eq_false k4⟩
    · unfold PlayLocal at h
      obtain ⟨_, _, h⟩ := Option.bind_eq_some.mp h
      obtain ⟨k1, k3, k4⟩ := runLoop_noFour PlayLocal.iter
        (fun _ _ _ _ hi => PlayLocal_iter_cases hi) envs _ run hQ h hrun
      exact ⟨(CheckWin_as k1 1).eq_false k3, (CheckWin_as k1 2).eq_false k4⟩

theorem win_only_by_last_placement_witness :
    Rect before44 ∧ before44.player = 1 ∧
      CheckWin { before44 with player := 1 } = some false ∧
      CheckWin { before44 with player := 2 } = some false ∧
      cell before44 3 0 = some 2 ∧ cell before44 3 1 = some 2 ∧ cell before44 3 2 = some 2 ∧
      MakeMove before44 2 = some (after44, true) ∧
      CheckWin { after44 with player := 3 - before44.player } = some false ∧
      NewGame 4 4 "ServerVsComputer" = some new44 ∧
      PlayLocal new44 moves44 = some ⟨reached44, 7, false⟩ ∧
      CheckWin { reached44 with player := 1 } = some false ∧
      CheckWin { reached44 with player := 2 } = some false :=
  ⟨by decide, by decide, by decide, by decide, by decide, by decide, by decide, by decide,
    ((win_only_by_last_placement 4 4 "ServerVsComputer").1 before44 after44 2 (by decide)
      (by decide) (by decide) (by decide) (by decide) (by decide) (by decide)).1,
    by decide, by decide,
    ((win_only_by_last_placement 4 4 "ServerVsComputer").2 new44 (by decide)).2 0
      moves44 ⟨reached44, 7, false⟩ (Or.inr (by decide)) rfl⟩

theorem exists_empty_of_not_draw {g : Game} (hg : Rect g) (hr : 0 < g.rows)
    (h : IsDraw g = some false) : ∃ c, cell g 0 c = some 0 := by
  have hn := (IsDraw_returns hg hr).of_eq_false h
  by_contra hne
  apply hn
  intro c hc0 hc1
  obtain ⟨v, hv⟩ := cell_of_bounds hg (r := 0) (c := c) (by omega) hr hc0 hc1
  rw [occupied_iff]
  refine ⟨v, hv, ?_⟩
  rintro rfl
  exact hne ⟨c, hv⟩

theorem draw_of_full {g : Game} (hg : Rect g) (hr : 0 < g.rows)
    (h : pieces g = g.rows.toNat * g.columns.toNat) : IsDraw g = some true := by
  refine (IsDraw_returns hg hr).eq_true (fun c hc0 hc1 => ?_)
  obtain ⟨v, hv⟩ := cell_of_bounds hg (r := 0) (c := c) (by omega) hr hc0 hc1
  rw [occupied_iff]
  refine ⟨v, hv, ?_⟩
  rintro rfl
  have := pieces_lt_of_empty hg hv
  omega

theorem cast_area {rows columns : Int} (h0 : 0 ≤ rows) (h1 : rows = 0 ∨ 0 ≤ columns) :
    ((rows.toNat * columns.toNat : Nat) : Int) = rows * columns := by
  rcases h1 with h1 | h1
  · subst h1
    simp
  · rw [Nat.cast_mul, Int.toNat_of_nonneg h0, Int.toNat_of_nonneg h1]

theorem iter_count {g g1 : Game} {st : Step} {n : Nat}
    (h : (g1 = g ∧ (st = Step.again ∨ st = Step.quit)) ∨
      ∃ c gm, 0 ≤ c ∧ c < g.columns ∧ MakeMove g c = some (gm, true) ∧
        afterMove gm = some (g1, st))
    (hQ : Rect g ∧ (g.player = 1 ∨ g.player = 2) ∧ pieces g = n ∧
      (0 < n → n < g.rows.toNat * g.columns.toNat)) :
    (st = Step.again →
        Rect g1 ∧ (g1.player = 1 ∨ g1.player = 2) ∧ pieces g1 = n ∧
          (0 < n → n < g1.rows.toNat * g1.columns.toNat) ∧
          g1.rows = g.rows ∧ g1.columns = g.columns) ∧
      (st = Step.moved →
        Rect g1 ∧ (g1.player = 1 ∨ g1.player = 2) ∧ pieces g1 = n + 1 ∧
          (n + 1 < g1.rows.toNat * g1.columns.toNat) ∧
          g1.rows = g.rows ∧ g1.columns = g.columns) := by
  obtain ⟨hg, hp, hn, hlt⟩ := hQ
  rcases iter_norm h with ⟨rfl, hst⟩ | ⟨c, gm, h0, h1, hm, hcase⟩
  · refine ⟨fun _ => ⟨hg, hp, hn, hlt, rfl, rfl⟩, fun hm => ?_⟩
    rcases hst with hst | hst <;> rw [hst] at hm <;> exact Step.noConfusion hm
  · obtain ⟨e1, e2, e3, e4, _, e6, _⟩ := MakeMove_effect hg hp h0 h1 hm
    obtain ⟨r, hr0, hr1, _⟩ := MakeMove_true hg h0 h1 hm
    rcases hcase with ⟨rfl, _⟩ | ⟨rfl, _⟩ | ⟨rfl, rfl, _, hdraw⟩
    · exact ⟨fun hs => Step.noConfusion hs, fun hs => Step.noConfusion hs⟩
    · exact ⟨fun hs => Step.noConfusion hs, fun hs => Step.noConfusion hs⟩
    · refine ⟨fun hs => Step.noConfusion hs, fun _ => ?_⟩
      obtain ⟨c0, hc0⟩ := exists_empty_of_not_draw e1 (by rw [e3]; omega) hdraw
      have hlt1 := pieces_lt_of_empty e1 hc0
      obtain ⟨s1, s2, s3, _, _, s6⟩ := SwitchPlayer_fields gm
      obtain ⟨c1, _, c3, _, _⟩ := board_props_congr s1 s2 s3
      simp only [if_true] at e6
      refine ⟨c1.mpr e1, by rw [s6]; split <;> simp, by rw [c3, e6, hn], ?_, by rw [s2, e3],
        by rw [s3, e4]⟩
      rw [s2, s3, ← hn, ← e6]
      exact hlt1

theorem runLoop_count (iter : Game → Env → Option (Game × Step))
    (hiter : ∀ g env g1 st, iter g env = some (g1, st) →
      (g1 = g ∧ (st = Step.again ∨ st = Step.quit)) ∨
        ∃ c gm, 0 ≤ c ∧ c < g.columns ∧ MakeMove g c = some (gm, true) ∧
          afterMove gm = some (g1, st))
    (envs : List Env) (g : Game) (run : Run) (hg : Rect g)
    (hp : g.player = 1 ∨ g.player = 2) (h0 : pieces g = 0)
    (h : runLoop iter g 0 envs = some run) (hrun : run.finished = false) :
    pieces run.game = run.moves ∧
      (0 < run.moves → run.moves < g.rows.toNat * g.columns.toNat) := by
  have key := runLoop_induct iter
    (fun g1 n => Rect g1 ∧ (g1.player = 1 ∨ g1.player = 2) ∧ pieces g1 = n ∧
      (0 < n → n < g1.rows.toNat * g1.columns.toNat) ∧
      g1.rows = g.rows ∧ g1.columns = g.columns)
    (fun _ _ => True)
    (fun g1 n env g2 hq hi => by
      obtain ⟨q1, q2, q3, q4, q5, q6⟩ := hq
      obtain ⟨a1, a2, a3, a4, a5, a6⟩ :=
        (iter_count (hiter g1 env g2 _ hi) ⟨q1, q2, q3, q4⟩).1 rfl
      exact ⟨a1, a2, a3, a4, by rw [a5, q5], by rw [a6, q6]⟩)
    (fun g1 n env g2 hq hi => by
      obtain ⟨q1, q2, q3, q4, q5, q6⟩ := hq
      obtain ⟨a1, a2, a3, a4, a5, a6⟩ :=
        (iter_count (hiter g1 env g2 _ hi) ⟨q1, q2, q3, q4⟩).2 rfl
      exact ⟨a1, a2, a3, fun _ => a4, by rw [a5, q5], by rw [a6, q6]⟩)
    (fun _ _ _ _ _ _ _ _ _ => trivial)
    envs g 0 run ⟨hg, hp, h0, fun hpos => absurd hpos (by omega), rfl, rfl⟩ h
  obtain ⟨_, _, k3, k4, k5, k6⟩ := key.1 hrun
  rw [k5, k6] at k4
  exact ⟨k3, k4⟩

/-- C10. Bounded game length, for a board with at least one row and one column (the program
builds boards of 4 to 20 rows and columns).  On a rectangular board with current player 1 or 2
and an in-range column, a `MakeMove` that returns `true` increases the number of non-empty
cells by exactly one and a `MakeMove` that returns `false` leaves it unchanged.
`NewGame(rows, columns)` returns a game without a piece; after any sequence of `SwitchPlayer`
calls and `MakeMove` calls with in-range columns from it, of which `k` succeeded, exactly `k`
cells are non-empty, `k <= rows*columns`, and if `k = rows*columns` then `IsDraw` returns
`true`.  Both turn loops run from the new game on every input, and in every state they reach
before the loop is left the number of non-empty cells is the number of moves made and is
below `rows*columns`: the loop does not continue on a full board. -/
theorem bounded_game_length (rows columns : Int) (mode : String) (hrows : 0 < rows)
    (hcolumns : 0 < columns) :
    (∀ (g g1 : Game) (col : Int) (ok : Bool), Rect g → (g.player = 1 ∨ g.player = 2) →
        0 ≤ col → col < g.columns → MakeMove g col = some (g1, ok) →
        pieces g1 = pieces g + (if ok then 1 else 0)) ∧
      ∃ g0, NewGame rows columns mode = some g0 ∧ pieces g0 = 0 ∧
        (∀ calls : List Call,
          (∀ col, Call.makeMove col ∈ calls → 0 ≤ col ∧ col < columns) →
          ∃ g k, runCalls g0 0 calls = some (g, k) ∧ pieces g = k ∧
            (k : Int) ≤ rows * columns ∧
            ((k : Int) = rows * columns → IsDraw g = some true)) ∧
        LoopsRun g0 ∧
        ∀ (conns : Nat) (envs : List Env) (run : Run),
          (Play { g0 with connections := conns } envs = some run ∨
            PlayLocal g0 envs = some run) →
          run.finished = false →
          pieces run.game = run.moves ∧ (run.moves : Int) < rows * columns := by
  constructor
  · intro g g1 col ok hg hp h0 h1 hm
    exact (MakeMove_effect hg hp h0 h1 hm).2.2.2.2.2.1
  · obtain ⟨g0, hnew⟩ := NewGame_eq mode (Int.le_of_lt hrows) (Int.le_of_lt hcolumns)
    obtain ⟨hg0, hp0, hr0, hc0, _, _, _, hpieces, hrows0, hdims⟩ := NewGame_props hnew
    have harea := cast_area hrows0 hdims
    have hposarea : 0 < rows * columns := Int.mul_pos hrows hcolumns
    refine ⟨g0, hnew, hpieces, ?_, loops_run hnew hcolumns, ?_⟩
    · intro calls hcols
      obtain ⟨g, k, hrun, f1, _, f3, f4, _, f6⟩ :=
        runCalls_inv calls g0 0 hg0 (Or.inl hp0) (fun c hc => by rw [hc0]; exact hcols c hc)
      have hk : pieces g = k := by omega
      have hle := pieces_le f1
      rw [f3, f4, hr0, hc0] at hle
      refine ⟨g, k, hrun, hk, ?_, fun hfull => ?_⟩
      · rw [← harea]
        exact_mod_cast (hk ▸ hle)
      · refine draw_of_full f1 (by rw [f3, hr0]; exact hrows) ?_
        rw [f3, f4, hr0, hc0, hk]
        rw [← harea] at hfull
        exact_mod_cast hfull
    · rintro conns envs run (h | h) hrun
      · obtain ⟨c1, _, c3, _, _⟩ :=
          @board_props_congr g0 { g0 with connections := conns } rfl rfl rfl
        obtain ⟨k1, k2⟩ := runLoop_count Play.iter (fun _ _ _ _ hi => Play_iter_cases hi)
          envs { g0 with connections := conns } run (c1.mpr hg0) (Or.inl hp0)
          (by rw [c3, hpieces]) h hrun
        refine ⟨k1, ?_⟩
        rcases Nat.eq_zero_or_pos run.moves with hz | hpos
        · rw [hz]
          exact_mod_cast hposarea
        · have := k2 hpos
          simp only [hr0, hc0] at this
          rw [← harea]
          exact_mod_cast this
      · unfold PlayLocal at h
        obtain ⟨_, _, h⟩ := Option.bind_eq_some.mp h
        obtain ⟨k1, k2⟩ := runLoop_count PlayLocal.iter
          (fun _ _ _ _ hi => PlayLocal_iter_cases hi) envs g0 run hg0 (Or.inl hp0) hpieces h
          hrun
        refine ⟨k1, ?_⟩
        rcases Nat.eq_zero_or_pos run.moves with hz | hpos
        · rw [hz]
          exact_mod_cast hposarea
        · have := k2 hpos
          rw [hr0, hc0] at this
          rw [← harea]
          exact_mod_cast this

theorem bounded_game_length_witness :
    NewGame 2 2 "ServerVsComputer" = some tiny ∧
      runCalls tiny 0
        [Call.makeMove 0, Call.switchPlayer, Call.makeMove 0, Call.switchPlayer,
          Call.makeMove 0, Call.makeMove 1, Call.switchPlayer, Call.makeMove 1] =
        some (tinyFull, 4) ∧
      pieces tinyFull = 4 ∧ IsDraw tinyFull = some true ∧
      PlayLocal tiny [typed "1\n", rolled 1, typed "9\n", typed "1\n"] =
        some ⟨tinyThree, 3, false⟩ ∧
      pieces tinyThree = 3 ∧ ((3 : Nat) : Int) < 2 * 2 := by
  obtain ⟨_, g0, hnew, _, hcalls, _, hloop⟩ :=
    bounded_game_length 2 2 "ServerVsComputer" (by decide) (by decide)
  have hnew0 : NewGame 2 2 "ServerVsComputer" = some tiny := by decide
  have hg0 : g0 = tiny := by
    rw [hnew0] at hnew
    exact (Option.some.inj hnew).symm
  subst hg0
  obtain ⟨g, k, hrun, hk, _, hdraw⟩ := hcalls
    [Call.makeMove 0, Call.switchPlayer, Call.makeMove 0, Call.switchPlayer,
      Call.makeMove 0, Call.makeMove 1, Call.switchPlayer, Call.makeMove 1]
    (fun col h => by
      simp only [List.mem_cons, Call.makeMove.injEq, List.mem_singleton, List.mem_nil_iff,
        or_false, false_or, reduceCtorEq] at h
      omega)
  have hr : runCalls tiny 0
      [Call.makeMove 0, Call.switchPlayer, Call.makeMove 0, Call.switchPlayer,
        Call.makeMove 0, Call.makeMove 1, Call.switchPlayer, Call.makeMove 1] =
      some (tinyFull, 4) := by decide
  rw [hr] at hrun
  obtain ⟨hg, hk4⟩ := Prod.mk.inj (Option.some.inj hrun)
  subst hg
  subst hk4
  have hl : PlayLocal tiny [typed "1\n", rolled 1, typed "9\n", typed "1\n"] =
      some ⟨tinyThree, 3, false⟩ := by decide
  obtain ⟨l1, l2⟩ := hloop 0 [typed "1\n", rolled 1, typed "9\n", typed "1\n"]
    ⟨tinyThree, 3, false⟩ (Or.inr hl) rfl
  exact ⟨hnew0, hr, hk, hdraw (by decide), hl, l1, l2⟩

end Connect4
